import Mathlib

/-!
# A shallow embedding of the gorm condition compiler and schema reflector

This file embeds, in Lean 4, the two source files of the repository —
`scope_private.go` (the condition-clause compiler: `buildWhereCondition`,
`buildNotCondition`, `whereSql`, `autoMigrate`, `createTable`) and
`model_struct.go` (the struct-to-schema reflector: `GetModelStruct` and the
pluralization table) — and proves the specification's claims about them.

Conventions of the embedding:

* Go strings are Lean `String`s; byte-level details do not matter here.
* The scope's accumulated bound-value list (`scope.SqlVars`, grown by
  `AddToVars`) is threaded explicitly as a `List GoVal`.
* `AddToVars`, `Quote`, `PrimaryKey`, `Fields`, `QuotedTableName` and the
  search-specification type live outside the two source files, so they are
  modelled from the spec (each carries a doc comment saying so).
* Fallible Go operations (the `clause["args"].([]interface{})` type
  assertion, which panics when the entry is absent) are modelled with
  `Option`: a `none` result is a rendering abort.
-/

namespace Gorm

/-! ## Bound values and value markers -/

/-- A bound value: the subset of Go `interface{}` values the claims use
(integers and strings).  `driver.Valuer` unwrapping (scope_private.go:60-62,
122-124) is the identity on these plain primitives, so it is not represented
separately. -/
inductive GoVal where
  | vint (n : Int)
  | vstr (s : String)
deriving DecidableEq, Repr

/-- Go `fmt`'s `%v` rendering of a bound value. -/
def GoVal.render : GoVal → String
  | .vint n => toString n
  | .vstr s => s

/-- Opening delimiter of a value marker (reserved, never in SQL text). -/
def markOpenChar : Char := '\x01'

/-- Closing delimiter of a value marker. -/
def markCloseChar : Char := '\x02'

/-- Payload character of a value marker (unary-encoded position). -/
def markPayChar : Char := '\x03'

/-- Modelled from the spec: the value marker returned by `AddToVars` for the
`n`-th bound value.  §4.2: placeholders "are replaced left-to-right by
bound-value markers, consuming the clause's argument list in order"; the
dialect collaborator renders each marker as `?` in the final SQL text, so the
marker itself must be a token distinct from `?` (otherwise substituting a
marker for a `?` could not consume placeholders left-to-right, which is what
the real `Dialect.BinVar` indirection guarantees).  The marker records its
bound value's 1-based position in unary between two reserved characters; the
final rendering (`finalizeSql`) erases it to a single `?`. -/
def markerStr (n : Nat) : String :=
  ⟨markOpenChar :: (List.replicate n markPayChar ++ [markCloseChar])⟩

/-- Modelled from the spec: `Scope.AddToVars` appends the value to the
scope's accumulated bound-value list and returns the value marker for its
position (§3 invariant, §4.2). -/
def addToVars (v : GoVal) (vars : List GoVal) : String × List GoVal :=
  (markerStr (vars.length + 1), vars ++ [v])

/-- Rendering of one character of marker-bearing text into the final SQL
text: a marker collapses to `?`, ordinary characters stay. -/
def finalizeChar? (c : Char) : Option Char :=
  if c = markOpenChar then some '?'
  else if c = markPayChar ∨ c = markCloseChar then none
  else some c

/-- The final SQL text: every value marker rendered as a `?` placeholder
("after all substitutions", §3). -/
def finalizeSql (s : String) : String :=
  ⟨s.data.filterMap finalizeChar?⟩

/-- Number of `?` characters in a string. -/
def countQ (s : String) : Nat := s.data.count '?'

/-- A character of plain SQL text: not part of a value marker and not an
unconsumed `?` placeholder. -/
def plainQChar (c : Char) : Bool :=
  c ≠ markOpenChar && c ≠ markPayChar && c ≠ markCloseChar && c ≠ '?'

/-- Marker scanner state machine: `none` state is plain text, `some k` is
inside a marker having seen `k` payload characters.  Returns the 1-based
bound-value positions of the markers in left-to-right text order, or `none`
if the text contains a stray reserved character or an unconsumed `?`. -/
def tagScan : List Char → Option Nat → Option (List Nat)
  | [], none => some []
  | [], some _ => none
  | c :: cs, none =>
      if c = markOpenChar then tagScan cs (some 0)
      else if c = markPayChar ∨ c = markCloseChar ∨ c = '?' then none
      else tagScan cs none
  | c :: cs, some k =>
      if c = markPayChar then tagScan cs (some (k + 1))
      else if c = markCloseChar then (tagScan cs none).map (k :: ·)
      else none

/-- The left-to-right sequence of value-marker positions in a rendered SQL
string, defined when the string is clean (no stray reserved characters, no
unconsumed `?`). -/
def tagsOfQ (s : String) : Option (List Nat) := tagScan s.data none

/-- `strings.Replace(s, "?", repl, 1)` on character lists: replace the first
`?` (the search pattern is the single character `?` at every call site). -/
def rfq : List Char → List Char → List Char
  | [], _ => []
  | c :: cs, r => if c = '?' then r ++ cs else c :: rfq cs r

/-- `strings.Replace(str, "?", repl, 1)` (scope_private.go:58,64,120,125). -/
def replaceFirstQ (s repl : String) : String := ⟨rfq s.data repl.data⟩

/-! ## String classifiers used by the two condition builders -/

/-- A character matched by RE2's `\s`. -/
def isSpaceChar (c : Char) : Bool :=
  c = ' ' || c = '\t' || c = '\n' || c = '\r' || c = '\x0b' || c = '\x0c'

/-- The regular expression `^\s*\d+\s*$` of scope_private.go:22,77: optional
whitespace, one or more ASCII digits, optional whitespace. -/
def isNumericString (s : String) : Bool :=
  let l := s.data.dropWhile isSpaceChar
  let digits := l.takeWhile Char.isDigit
  let rest := (l.dropWhile Char.isDigit).dropWhile isSpaceChar
  digits ≠ [] && rest = []

/-- `strconv.Atoi` with the error ignored (scope_private.go:23,78): the
parsed value on a plain digit string, `0` otherwise (Go's `Atoi` rejects
surrounding whitespace, and the discarded error leaves `id` at zero). -/
def goAtoi (s : String) : Int :=
  match s.toNat? with
  | some n => (n : Int)
  | none => 0

/-- The spaced comparison-operator substrings of the case-insensitive
regular expression `(?i) (=|<>|>|<|LIKE|IS) ` (scope_private.go:80). -/
def compOpSubstrings : List String :=
  [" = ", " <> ", " > ", " < ", " LIKE ", " IS "]

/-- Does `pat` occur as a contiguous subsequence of the list? -/
def containsSeq (pat : List Char) : List Char → Bool
  | [] => pat.isEmpty
  | l@(_ :: t) => pat.isPrefixOf l || containsSeq pat t

/-- Does one of the strings of `compOpSubstrings` occur in `s`,
case-insensitively?  Exactly the matches of scope_private.go:80's pattern. -/
def containsCompOp (s : String) : Bool :=
  compOpSubstrings.any (fun op => containsSeq op.data (s.data.map Char.toUpper))

/-! ## Clauses, search specifications and scopes -/

/-- One positional argument of a clause: Go distinguishes arguments of
slice kind from everything else (scope_private.go:51-52, 113-114). -/
inductive QArg where
  | scalar (v : GoVal)
  | arr (vs : List GoVal)
deriving DecidableEq, Repr

/-- The shapes the `clause["query"]` type switch distinguishes
(scope_private.go:19-47, 74-109).  `qvalList` stands for the typed scalar
slices `[]int, ..., []uint64, []string` (both builders list them);
`sql.NullInt64` and `[]interface{}` are not needed by any claim and are
omitted.  A struct value is its field list as `scope.New(value).Fields()`
reports it: database column name, value, blank flag. -/
inductive Query where
  | qstr (s : String)
  | qint (n : Int)
  | qvalList (vs : List GoVal)
  | qmap (kvs : List (String × GoVal))
  | qstruct (fs : List (String × GoVal × Bool))
deriving DecidableEq, Repr

/-- Is the query of string shape? -/
def Query.isStr : Query → Bool
  | .qstr _ => true
  | _ => false

/-- A condition clause: the Go `map[string]interface{}` with a `"query"`
entry and an optional `"args"` entry (the type assertion
`clause["args"].([]interface{})` panics when the entry is absent, modelled
by `none`). -/
structure Clause where
  query : Query
  args : Option (List QArg)
deriving DecidableEq, Repr

/-- Modelled from the spec: the search specification's ordered clause lists
and the unscoped flag (§3 SearchSpecification), the parts `whereSql`
consumes. -/
structure Search where
  whereConditions : List Clause
  orConditions : List Clause
  notConditions : List Clause
  unscope : Bool
deriving DecidableEq, Repr

/-- Modelled from the spec: the scope state `whereSql` and the builders read
through `Scope.PrimaryKey`, `Scope.QuotedTableName`, `Scope.Fields`,
`Scope.PrimaryKeyZero` and `Scope.PrimaryKeyValue` — the primary-key column
name, the table name, whether the type has a `deleted_at` column, and the
target value's primary-key state. -/
structure Scope where
  primaryKey : String
  tableName : String
  hasDeletedAtField : Bool
  primaryKeyIsZero : Bool
  primaryKeyVal : GoVal
  search : Search
deriving DecidableEq, Repr

/-- Modelled from the spec: `Scope.Quote`, the dialect's identifier quoting;
the spec's rendered examples (§8) double-quote identifiers. -/
def quoteId (s : String) : String := "\"" ++ s ++ "\""

/-- `scope.primaryCondition(value)` (scope_private.go:14-16); both call
sites pass a marker or a rendered literal, so the `%v` operand is already a
string. -/
def primaryCondition (scope : Scope) (value : String) : String :=
  "(" ++ quoteId scope.primaryKey ++ " = " ++ value ++ ")"

/-! ## The two condition builders (scope_private.go:18-129) -/

/-- The `tempMarks` loop of the slice-argument branch
(scope_private.go:53-57, 115-119): one marker per element, in element
order. -/
def expandMarks : List GoVal → List GoVal → List String × List GoVal
  | [], vars => ([], vars)
  | v :: vs, vars =>
      let (m, vars') := addToVars v vars
      let (ms, vars'') := expandMarks vs vars'
      (m :: ms, vars'')

/-- The argument-substitution loop of `buildWhereCondition`
(scope_private.go:50-66): a slice argument expands the first `?` to
comma-joined markers, any other argument replaces the first `?` by its
marker. -/
def processWhereArgs : List QArg → String → List GoVal → String × List GoVal
  | [], str, vars => (str, vars)
  | .arr vs :: rest, str, vars =>
      let (ms, vars') := expandMarks vs vars
      processWhereArgs rest (replaceFirstQ str (String.intercalate "," ms)) vars'
  | .scalar v :: rest, str, vars =>
      let (m, vars') := addToVars v vars
      processWhereArgs rest (replaceFirstQ str m) vars'

/-- The argument-substitution loop of `buildNotCondition`
(scope_private.go:112-127).  The slice branch substitutes into the running
`str`, but the default branch substitutes into the `notEqualSql` template,
discarding the running string (line 125). -/
def processNotArgs (notEqualSql : String) :
    List QArg → String → List GoVal → String × List GoVal
  | [], str, vars => (str, vars)
  | .arr vs :: rest, str, vars =>
      let (ms, vars') := expandMarks vs vars
      processNotArgs notEqualSql rest
        (replaceFirstQ str (String.intercalate "," ms)) vars'
  | .scalar v :: rest, _, vars =>
      let (m, vars') := addToVars v vars
      processNotArgs notEqualSql rest (replaceFirstQ notEqualSql m) vars'

/-- The per-key condition loop shared by the mapping and struct branches
(scope_private.go:33-38 and 95-100 with `op`): one parenthesized
`<quoted key> <op> <marker>` condition per pair, values bound in iteration
order.  The Go map is modelled as an association list iterated in list
order. -/
def condPairSqls (op : String) :
    List (String × GoVal) → List GoVal → List String × List GoVal
  | [], vars => ([], vars)
  | (k, v) :: rest, vars =>
      let (m, vars') := addToVars v vars
      let (sqls, vars'') := condPairSqls op rest vars'
      (("(" ++ quoteId k ++ op ++ m ++ ")") :: sqls, vars'')

/-- The struct branch's field loop (scope_private.go:40-46, 102-108):
blank fields are skipped, non-blank fields render like mapping pairs with
the field's database column name. -/
def condFieldSqls (op : String) :
    List (String × GoVal × Bool) → List GoVal → List String × List GoVal
  | [], vars => ([], vars)
  | (dbName, v, isBlank) :: rest, vars =>
      if isBlank then condFieldSqls op rest vars
      else
        let (m, vars') := addToVars v vars
        let (sqls, vars'') := condFieldSqls op rest vars'
        (("(" ++ quoteId dbName ++ op ++ m ++ ")") :: sqls, vars'')

/-- `scope.buildWhereCondition(clause)` (scope_private.go:18-68).  The
string shapes that reach line 49 read the clause's `"args"` entry through a
type assertion that panics when it is absent; that abort is the `none`
result.  The slice shape sets `clause["args"]` itself (line 32) before the
loop, so it never aborts. -/
def buildWhereCondition (scope : Scope) (c : Clause) (vars : List GoVal) :
    Option (String × List GoVal) :=
  match c.query with
  | .qstr value =>
      if isNumericString value then
        let (m, vars') := addToVars (.vint (goAtoi value)) vars
        some (primaryCondition scope m, vars')
      else
        let str := if value ≠ "" then "(" ++ value ++ ")" else ""
        match c.args with
        | none => none
        | some args => some (processWhereArgs args str vars)
  | .qint n =>
      let (m, vars') := addToVars (.vint n) vars
      some (primaryCondition scope m, vars')
  | .qvalList vs =>
      let str := "(" ++ quoteId scope.primaryKey ++ " in (?))"
      some (processWhereArgs [QArg.arr vs] str vars)
  | .qmap kvs =>
      let (sqls, vars') := condPairSqls " = " kvs vars
      some (String.intercalate " AND " sqls, vars')
  | .qstruct fs =>
      let (sqls, vars') := condFieldSqls " = " fs vars
      some (String.intercalate " AND " sqls, vars')

/-- `scope.buildNotCondition(clause)` (scope_private.go:70-129).  Note the
slice shape: lines 90-93 assign `str` and `clause["args"]`, but line 94
returns the empty string unconditionally, so those assignments are dead and
a slice not-clause renders as `""`.  The numeric-string and scalar shapes
interpolate the value itself into the text (`%v`, no `AddToVars`). -/
def buildNotCondition (scope : Scope) (c : Clause) (vars : List GoVal) :
    Option (String × List GoVal) :=
  match c.query with
  | .qstr value =>
      if isNumericString value then
        some ("(" ++ quoteId scope.primaryKey ++ " <> " ++
          toString (goAtoi value) ++ ")", vars)
      else if containsCompOp value then
        let str := " NOT (" ++ value ++ ") "
        let notEqualSql := "NOT (" ++ value ++ ")"
        match c.args with
        | none => none
        | some args => some (processNotArgs notEqualSql args str vars)
      else
        let str := "(" ++ quoteId value ++ " NOT IN (?))"
        let notEqualSql := "(" ++ quoteId value ++ " <> ?)"
        match c.args with
        | none => none
        | some args => some (processNotArgs notEqualSql args str vars)
  | .qint n =>
      some ("(" ++ quoteId scope.primaryKey ++ " <> " ++ toString n ++ ")",
        vars)
  | .qvalList _ => some ("", vars)
  | .qmap kvs =>
      let (sqls, vars') := condPairSqls " <> " kvs vars
      some (String.intercalate " AND " sqls, vars')
  | .qstruct fs =>
      let (sqls, vars') := condFieldSqls " <> " fs vars
      some (String.intercalate " AND " sqls, vars')

/-! ## WHERE-clause assembly (scope_private.go:159-208) -/

/-- The soft-delete filter string of scope_private.go:163. -/
def softDeleteSql (scope : Scope) : String :=
  "(" ++ quoteId scope.tableName ++ ".deleted_at IS NULL OR " ++
    quoteId scope.tableName ++ ".deleted_at <= '0001-01-02')"

/-- One of the three clause-compilation loops of `whereSql`
(scope_private.go:171-187): compile each clause in order with `build`,
keeping only non-empty renderings. -/
def buildConditionList
    (build : Clause → List GoVal → Option (String × List GoVal)) :
    List Clause → List GoVal → Option (List String × List GoVal)
  | [], vars => some ([], vars)
  | c :: cs, vars =>
      match build c vars with
      | none => none
      | some (s, vars') =>
          match buildConditionList build cs vars' with
          | none => none
          | some (rest, vars'') =>
              some ((if s = "" then rest else s :: rest), vars'')

/-- The `orSql`/`combinedSql` locals of scope_private.go:189-197: the
and-group joined by ` AND `, followed by ` OR ` and the or-group joined by
` OR ` when both are non-empty. -/
def combinedConditionSql (andConditions orConditions : List String) :
    String :=
  let orSql := String.intercalate " OR " orConditions
  let combinedSql := String.intercalate " AND " andConditions
  if combinedSql.length > 0 then
    if orSql.length > 0 then combinedSql ++ " OR " ++ orSql
    else combinedSql
  else orSql

/-- The final `sql` assembly of scope_private.go:199-206: the primary
conditions joined by ` AND ` after `WHERE `, the clause group parenthesized
after them; no `WHERE` keyword at all when everything is empty. -/
def assembleWhereSql (primaryConditions : List String)
    (combinedSql : String) : String :=
  if primaryConditions.length > 0 then
    "WHERE " ++ String.intercalate " AND " primaryConditions ++
      (if combinedSql.length > 0 then " AND (" ++ combinedSql ++ ")"
       else "")
  else if combinedSql.length > 0 then "WHERE " ++ combinedSql
  else ""

/-- `scope.whereSql()` (scope_private.go:159-208): primary conditions
(soft-delete filter unless unscoped and the type has a `deleted_at` column,
then primary-key equality when the target's key is non-zero), then the
where-clauses, or-clauses and not-clauses compiled in that order; the text
places the and-group (wheres then nots) before ` OR ` and the or-group, the
whole clause group parenthesized after the primary conditions. -/
def whereSql (scope : Scope) (vars : List GoVal) :
    Option (String × List GoVal) :=
  let primaryConditions : List String :=
    if scope.search.unscope = false ∧ scope.hasDeletedAtField then
      [softDeleteSql scope]
    else []
  let (primaryConditions, vars) :=
    if scope.primaryKeyIsZero = false then
      let (m, vars') := addToVars scope.primaryKeyVal vars
      (primaryConditions ++ [primaryCondition scope m], vars')
    else (primaryConditions, vars)
  match buildConditionList (buildWhereCondition scope)
      scope.search.whereConditions vars with
  | none => none
  | some (andConditions, vars) =>
    match buildConditionList (buildWhereCondition scope)
        scope.search.orConditions vars with
    | none => none
    | some (orConditions, vars) =>
      match buildConditionList (buildNotCondition scope)
          scope.search.notConditions vars with
      | none => none
      | some (notConditions, vars) =>
        some (assembleWhereSql primaryConditions
          (combinedConditionSql (andConditions ++ notConditions)
            orConditions), vars)

/-! ## Well-formedness of clauses and the values a clause binds -/

/-- A character that is not part of the marker alphabet. -/
def noResChar (c : Char) : Bool :=
  c ≠ markOpenChar && c ≠ markPayChar && c ≠ markCloseChar

/-- A string free of marker characters (it may contain `?` placeholders):
what a caller-supplied SQL fragment looks like. -/
def noReserved (s : String) : Bool := s.data.all noResChar

/-- A string of plain SQL text only: no marker characters and no `?`
placeholders — what identifiers (column names, table names) look like. -/
def plainStr (s : String) : Bool := s.data.all plainQChar

/-- The bound values one clause argument contributes, in order. -/
def argVals : QArg → List GoVal
  | .scalar v => [v]
  | .arr vs => vs

/-- The bound values an argument list contributes, in order. -/
def argsVals (args : List QArg) : List GoVal := args.flatMap argVals

/-- The values `buildWhereCondition` appends to the scope's bound-value
list for one clause, in order. -/
def whereClauseVals (c : Clause) : List GoVal :=
  match c.query with
  | .qstr s =>
      if isNumericString s then [.vint (goAtoi s)]
      else argsVals (c.args.getD [])
  | .qint n => [.vint n]
  | .qvalList vs => vs
  | .qmap kvs => kvs.map (fun kv => kv.2)
  | .qstruct fs =>
      (fs.filter (fun f => f.2.2 = false)).map (fun f => f.2.1)

/-- The values `buildNotCondition` appends for one clause, in order (the
numeric-string, scalar and slice shapes bind none). -/
def notClauseVals (c : Clause) : List GoVal :=
  match c.query with
  | .qstr s =>
      if isNumericString s then []
      else argsVals (c.args.getD [])
  | .qint _ => []
  | .qvalList _ => []
  | .qmap kvs => kvs.map (fun kv => kv.2)
  | .qstruct fs =>
      (fs.filter (fun f => f.2.2 = false)).map (fun f => f.2.1)

/-- A well-formed where/or clause: a string clause is either numeric or
supplies exactly one argument per `?` placeholder of a marker-free
fragment (§8: "N placeholders with N arguments supplied"); mapping and
struct clauses quote plain identifiers. -/
def wfWhereClause (c : Clause) : Bool :=
  match c.query with
  | .qstr s =>
      isNumericString s ||
        (noReserved s &&
          match c.args with
          | some args => args.length = countQ s
          | none => false)
  | .qint _ => true
  | .qvalList _ => true
  | .qmap kvs => kvs.all (fun kv => plainStr kv.1)
  | .qstruct fs => fs.all (fun f => plainStr f.1)

/-- A well-formed not clause.  String not-clauses substitute scalar
arguments into the `notEqualSql` template rather than the running string
(scope_private.go:125), so only a single argument round-trips: a
comparison-operator fragment takes zero or one argument matching its
placeholder count, and a plain column name takes exactly the one argument
its generated template consumes. -/
def wfNotClause (c : Clause) : Bool :=
  match c.query with
  | .qstr s =>
      if isNumericString s then true
      else if containsCompOp s then
        noReserved s &&
          match c.args with
          | some [] => countQ s = 0
          | some [_] => countQ s = 1
          | _ => false
      else
        plainStr s && (match c.args with | some [_] => true | _ => false)
  | .qint _ => true
  | .qvalList _ => true
  | .qmap kvs => kvs.all (fun kv => plainStr kv.1)
  | .qstruct fs => fs.all (fun f => plainStr f.1)

/-- A scope whose rendering respects the bound-value order invariant: its
identifiers are plain, every clause is well-formed, and or-clauses are not
combined with not-clauses (`whereSql` renders not-clauses into the text
before the or-clauses but binds their values after them,
scope_private.go:171-197, so a search using both groups with bound values
breaks the invariant). -/
def wfRenderScope (scope : Scope) : Bool :=
  plainStr scope.primaryKey && plainStr scope.tableName &&
  scope.search.whereConditions.all wfWhereClause &&
  scope.search.orConditions.all wfWhereClause &&
  scope.search.notConditions.all wfNotClause &&
  (scope.search.orConditions.isEmpty || scope.search.notConditions.isEmpty)

/-- Follows the words of the spec (claim C2): the WHERE clause is the
`AND` of the groups, in order — (1) the soft-delete filter unless the
unscoped flag is set (for a type carrying a `deleted_at` column), (2) the
primary-key equality when the target value carries a non-zero primary key,
(3) the compiled where- and not-clauses joined by ` AND `, followed by
` OR ` and the compiled or-clauses when any exist, the group parenthesized
when the primary groups are present.  Empty groups are omitted from the
list; when every group is empty the result is the empty string with no
`WHERE` keyword. -/
def specWhereAssembly (scope : Scope) (vars : List GoVal) :
    Option (String × List GoVal) :=
  let sdGroup : List String :=
    if scope.search.unscope = false ∧ scope.hasDeletedAtField then
      [softDeleteSql scope]
    else []
  let (pkGroup, vars) : List String × List GoVal :=
    if scope.primaryKeyIsZero = false then
      let (m, vars') := addToVars scope.primaryKeyVal vars
      ([primaryCondition scope m], vars')
    else ([], vars)
  match buildConditionList (buildWhereCondition scope)
      scope.search.whereConditions vars with
  | none => none
  | some (whereGroup, vars) =>
    match buildConditionList (buildWhereCondition scope)
        scope.search.orConditions vars with
    | none => none
    | some (orGroup, vars) =>
      match buildConditionList (buildNotCondition scope)
          scope.search.notConditions vars with
      | none => none
      | some (notGroup, vars) =>
        let andGroup := whereGroup ++ notGroup
        let clauseGroup : String :=
          if andGroup = [] then String.intercalate " OR " orGroup
          else if orGroup = [] then String.intercalate " AND " andGroup
          else String.intercalate " AND " andGroup ++ " OR " ++
            String.intercalate " OR " orGroup
        let groups : List String :=
          sdGroup ++ pkGroup ++
            (if clauseGroup = "" then []
             else if sdGroup ++ pkGroup = [] then [clauseGroup]
             else ["(" ++ clauseGroup ++ ")"])
        if groups = [] then some ("", vars)
        else some ("WHERE " ++ String.intercalate " AND " groups, vars)

/-! ## The schema reflector (model_struct.go) -/

/-- A Go type as `GetModelStruct` observes it through reflection: its kind
(non-struct scalar, pointer, slice, struct), whether `reflect.New` of it
implements `sql.Scanner`, whether it is `time.Time`, and for structs the
type name, the result of a `TableName` method when one is declared, and the
declared fields in order.  A field is the tuple (name, anonymous flag,
raw-`sql:"-"` flag, parsed `sql` settings, parsed `gorm` settings, type):
struct tags arrive already split into key-value settings
(`parseTagSetting` lives outside the two source files; the spec treats tags
as declarative settings), next to the raw `sql:"-"` flag the ignore check
reads. -/
inductive GoType where
  | base (isScanner isTime : Bool)
  | ptr (elem : GoType)
  | slice (elem : GoType)
  | strct (isScanner isTime : Bool) (name : String)
      (tableNameMethod : Option String)
      (fields : List (String × Bool × Bool × List (String × String) ×
        List (String × String) × GoType))

/-- A declared struct field as reflection reports it. -/
abbrev GoFieldT := String × Bool × Bool × List (String × String) ×
  List (String × String) × GoType

/-- The field's declared name. -/
def fieldName (f : GoFieldT) : String := f.1

/-- Is the field anonymous (embedded without a field name)? -/
def fieldAnon (f : GoFieldT) : Bool := f.2.1

/-- Is the field's raw `sql` tag exactly `-`? -/
def fieldDash (f : GoFieldT) : Bool := f.2.2.1

/-- The field's parsed `sql` tag settings. -/
def fieldTagSql (f : GoFieldT) : List (String × String) := f.2.2.2.1

/-- The field's parsed `gorm` tag settings. -/
def fieldTagGorm (f : GoFieldT) : List (String × String) := f.2.2.2.2.1

/-- The field's declared type. -/
def fieldTyp (f : GoFieldT) : GoType := f.2.2.2.2.2

/-- Structural equality of reflected types — Go's `reflect.Type` identity,
the key of the memoized descriptor map. -/
def GoType.eqb : GoType → GoType → Bool
  | .base a b, .base a' b' => a = a' && b = b'
  | .ptr e, .ptr e' => e.eqb e'
  | .slice e, .slice e' => e.eqb e'
  | .strct a b n ov fs, .strct a' b' n' ov' fs' =>
      a = a' && b = b' && n = n' && ov = ov' && fieldsEqb fs fs'
  | _, _ => false
where
  /-- Equality of field lists. -/
  fieldsEqb : List GoFieldT → List GoFieldT → Bool
  | [], [] => true
  | (n, a, d, ts, tg, ty) :: fs, (n', a', d', ts', tg', ty') :: fs' =>
      n = n' && a = a' && d = d' && ts = ts' && tg = tg' && ty.eqb ty' &&
        fieldsEqb fs fs'
  | _, _ => false

/-- `ast.IsExported(name)`: the first character is upper-case. -/
def isExportedName (s : String) : Bool :=
  match s.data with
  | [] => false
  | c :: _ => c.isUpper

/-- A tag-setting lookup, `settings[key]` with present/absent distinguished
(Go's `value, ok := settings[key]`). -/
def tagGet (tags : List (String × String)) (k : String) : Option String :=
  (tags.find? (fun p => p.1 = k)).map (fun p => p.2)

/-- A tag-setting lookup defaulting to the empty string (Go's
`settings[key]` without the `ok`). -/
def tagGetD (tags : List (String × String)) (k : String) : String :=
  (tagGet tags k).getD ""

/-- One pointer dereference, `reflect.Indirect` /
`scopeType.Elem()` on a pointer kind. -/
def indirectType : GoType → GoType
  | .ptr e => e
  | t => t

/-- Does `reflect.New` of the type implement `sql.Scanner`
(model_struct.go:82,194)?  A semantic property of the type, carried as
data. -/
def GoType.isScannerType : GoType → Bool
  | .base sc _ => sc
  | .strct sc _ _ _ _ => sc
  | _ => false

/-- Is the type `time.Time` (model_struct.go:198)? -/
def GoType.isTimeType : GoType → Bool
  | .base _ t => t
  | .strct _ t _ _ _ => t
  | _ => false

/-- The reflection kind switch of model_struct.go:212,248,283 needs only
these three observations. -/
def GoType.isSliceKind : GoType → Bool | .slice _ => true | _ => false

/-- Is the type of struct kind? -/
def GoType.isStructKind : GoType → Bool | .strct _ _ _ _ _ => true | _ => false

/-- `reflect.New(typ).Elem().FieldByName(name).IsValid()` /
`scopeType.FieldByName(name)` (model_struct.go:232,267): does the struct
type declare a field of that name? -/
def GoType.hasFieldNamed (t : GoType) (n : String) : Bool :=
  match t with
  | .strct _ _ _ _ fields => fields.any (fun f => fieldName f = n)
  | _ => false

/-- `Relationship` (model_struct.go:54-62). -/
structure LRelationship where
  kind : String
  foreignType : String
  foreignFieldName : String
  foreignDBName : String
  associationForeignFieldName : String
  associationForeignDBName : String
  joinTable : String
deriving DecidableEq, Repr

/-- `StructField` (model_struct.go:20-34); `Tag` and `Struct` are carried
as the parsed tag settings and the field's type. -/
structure LStructField where
  dbName : String
  name : String
  names : List String
  isPrimaryKey : Bool
  isNormal : Bool
  isIgnored : Bool
  isScanner : Bool
  hasDefaultValue : Bool
  sqlTag : String
  tagSql : List (String × String)
  tagGorm : List (String × String)
  typ : GoType
  relationship : Option LRelationship

/-- `ModelStruct` (model_struct.go:14-18).  `PrimaryKeyField` is a pointer
into `StructFields` in Go; here it is the final value of the designated
field. -/
structure LModelStruct where
  primaryKeyField : Option LStructField
  structFields : List LStructField
  tableName : String

/-- Modelled from the spec: `ToDBName` (outside the two source files),
"normalize the type name to snake_case" (§4.1): an underscore before each
interior upper-case letter, everything lower-cased. -/
def toDBNameAux : List Char → Bool → List Char
  | [], _ => []
  | c :: cs, first =>
      if c.isUpper then
        (if first then [c.toLower] else ['_', c.toLower]) ++ toDBNameAux cs false
      else c :: toDBNameAux cs false

/-- Snake-case normalization of a Go name. -/
def toDBName (s : String) : String := ⟨toDBNameAux s.data true⟩

/-- One suffix-rewrite pluralization rule: each regular expression of
`pluralMapKeys` (model_struct.go:110) is anchored at the end of the string,
so `ReplaceAllString` rewrites the suffix exactly when it is present. -/
def applySuffixRule (sfx repl s : String) : String :=
  if sfx.data.isSuffixOf s.data then
    ⟨s.data.take (s.data.length - sfx.data.length)⟩ ++ repl
  else s

/-- The last rule `([^s])s?$ -> ${1}s` (model_struct.go:110-111): it
matches exactly the strings whose last character is not `s` (match = that
character, rewritten to itself plus `s`) or that end in a non-`s` character
followed by one `s` (rewritten to itself — the rewrite is the identity);
strings ending in `ss` or equal to `s` do not match.  Net effect: append
`s` when the last character is not `s`. -/
def applyFinalSRule (s : String) : String :=
  match s.data.getLast? with
  | some c => if c ≠ 's' then s ++ "s" else s
  | none => s

/-- The pluralization loop of model_struct.go:151-156: every rule of the
ordered list is tested, in order, against the current value of the name,
and applied when it matches. -/
def pluralize (s : String) : String :=
  let s := applySuffixRule "ch" "ches" s
  let s := applySuffixRule "ss" "sses" s
  let s := applySuffixRule "sh" "shes" s
  let s := applySuffixRule "day" "days" s
  let s := applySuffixRule "y" "ies" s
  let s := applySuffixRule "x" "xes" s
  applyFinalSRule s

/-- The dialect collaborator's DDL capabilities (§6): default column type,
primary-key column type, table and column existence.  Consumed, never
inspected. -/
structure LDialect where
  sqlTagFn : GoType → Nat → String
  primaryKeyTagFn : GoType → Nat → String
  hasTable : String → Bool
  hasColumn : String → String → Bool

/-- The parent database handle as the reflector sees it: the memoized
type-to-descriptor map (`ModelStructs`, keyed by type identity), the
singular-table mode flag, and the dialect. -/
structure LDB where
  modelStructs : List (GoType × LModelStruct)
  singularTable : Bool
  dialect : LDialect

/-- The `getScannerValue` drill of model_struct.go:79-87: while the current
value's type implements `sql.Scanner` and is of struct kind, descend into
its first field. -/
def scannerValueType : GoType → GoType
  | .strct true t name ov ((n, a, d, ts, tg, ty) :: fs) =>
      -- still a scanner struct: descend into field 0
      have : sizeOf ty <
          sizeOf (GoType.strct true t name ov ((n, a, d, ts, tg, ty) :: fs)) := by
        simp
        omega
      scannerValueType ty
  | t => t
termination_by t => sizeOf t

/-- `scope.generateSqlTag(field)` (model_struct.go:64-108): explicit type
tag or the dialect's default for the (scanner-unwrapped) field type, with
not-null/unique/default modifiers appended. -/
def generateSqlTag (d : LDialect) (f : LStructField) : String :=
  let sqlType := tagGetD f.tagSql "TYPE"
  let additionalType := tagGetD f.tagSql "NOT NULL" ++ " " ++ tagGetD f.tagSql "UNIQUE"
  let additionalType :=
    match tagGet f.tagSql "DEFAULT" with
    | some v => additionalType ++ "DEFAULT " ++ v
    | none => additionalType
  let reflectType := f.typ
  let reflectType := if f.isScanner then scannerValueType reflectType else reflectType
  let sqlType :=
    if sqlType = "" then
      let size := match tagGet f.tagSql "SIZE" with
        | some v => (v.toNat?).getD 0
        | none => 255
      if f.isPrimaryKey then d.primaryKeyTagFn reflectType size
      else d.sqlTagFn reflectType size
    else sqlType
  if additionalType.trim = "" then sqlType
  else sqlType ++ " " ++ additionalType

/-- The slice-element step of model_struct.go:121-123 and 214. -/
def sliceElem : GoType → GoType
  | .slice e => e
  | t => t

/-- `typ.Name()` of a struct type. -/
def GoType.nameOf : GoType → String
  | .strct _ _ n _ _ => n
  | _ => ""

/-- The type the field loop ultimately describes: one pointer indirection
of the scope's value (model_struct.go:116), the element type when it is a
slice (121-123), and one more pointer unwrap (127-129). -/
def scopeTypeOf (t : GoType) : GoType :=
  indirectType (sliceElem (indirectType t))

/-- `ModelStructs` cache lookup by type identity (model_struct.go:132). -/
def cacheLookup : List (GoType × LModelStruct) → GoType → Option LModelStruct
  | [], _ => none
  | (k, m) :: rest, t => if k.eqb t then some m else cacheLookup rest t

/-- The zero `ModelStruct` returned for non-struct values
(model_struct.go:114,118,138). -/
def emptyModelStruct : LModelStruct :=
  { primaryKeyField := none, structFields := [], tableName := "" }

/-- A fresh `StructField` as the loop header builds it
(model_struct.go:162-167). -/
def freshStructField (f : GoFieldT) : LStructField :=
  { dbName := "", name := fieldName f, names := [fieldName f],
    isPrimaryKey := false, isNormal := false, isIgnored := false,
    isScanner := false, hasDefaultValue := false, sqlTag := "",
    tagSql := fieldTagSql f, tagGorm := fieldTagGorm f,
    typ := fieldTyp f, relationship := none }

/-- The primary-key designation after appending a block of fields:
assignments later in the loop overwrite earlier ones
(model_struct.go:176), so a designation from the remaining fields wins,
shifted past the block. -/
def mergePk (blockLen : Nat) (localPk restPk : Option Nat) : Option Nat :=
  match restPk with
  | some j => some (blockLen + j)
  | none => localPk

/-- The post-pass of model_struct.go:292-303, index-threaded: for plain
columns, fall back to a field whose column name is exactly `id` when no
primary key was designated, and (with a database handle) compute the
field's DDL type tag. -/
def postPassFields (db : Option LDB) :
    List LStructField → Option Nat → Nat → List LStructField × Option Nat
  | [], pkIdx, _ => ([], pkIdx)
  | f :: fs, pkIdx, idx =>
      if f.isNormal then
        let (f', pkIdx') :=
          if pkIdx = none ∧ f.dbName = "id" then
            ({ f with isPrimaryKey := true }, some idx)
          else (f, pkIdx)
        let f' := match db with
          | some d => { f' with sqlTag := generateSqlTag d.dialect f' }
          | none => f'
        let (rest, pkIdx'') := postPassFields db fs pkIdx' (idx + 1)
        (f' :: rest, pkIdx'')
      else
        let (rest, pkIdx') := postPassFields db fs pkIdx (idx + 1)
        (f :: rest, pkIdx')

/-- Termination fact: `sizeOf` does not grow under one pointer
indirection. -/
def sizeOf_indirectType_le (t : GoType) :
    sizeOf (indirectType t) ≤ sizeOf t := by
  cases t <;> simp [indirectType]

/-- Termination fact: `sizeOf` does not grow when taking a slice's element
type. -/
def sizeOf_sliceElem_le (t : GoType) :
    sizeOf (sliceElem t) ≤ sizeOf t := by
  cases t <;> simp [sliceElem]

/-- Termination fact: `sizeOf` does not grow along the indirection chain to
the described struct type. -/
def sizeOf_scopeTypeOf_le (t : GoType) :
    sizeOf (scopeTypeOf t) ≤ sizeOf t := by
  unfold scopeTypeOf
  calc sizeOf (indirectType (sliceElem (indirectType t)))
      ≤ sizeOf (sliceElem (indirectType t)) := sizeOf_indirectType_le _
    _ ≤ sizeOf (indirectType t) := sizeOf_sliceElem_le _
    _ ≤ sizeOf t := sizeOf_indirectType_le _

mutual

/-- `scope.GetModelStruct()` (model_struct.go:113-310) for a scope whose
value has type `t`: indirect to the described struct type, return the
memoized descriptor if the handle has one, otherwise derive the table name
(`TableName` method override, else snake_case plus the pluralization rules
unless singular-table mode), process the declared fields in order, run the
primary-key/DDL post-pass, and memoize the result on the handle.  The
spec's `DescribeType`. -/
def getModelStruct (t : GoType) (db : Option LDB) :
    LModelStruct × Option LDB :=
  match db.bind (fun d => cacheLookup d.modelStructs (scopeTypeOf t)) with
  | some m => (m, db)
  | none =>
    match hst : scopeTypeOf t with
    | .strct sc tm name tableNameMethod rawFields =>
        let scopeType := GoType.strct sc tm name tableNameMethod rawFields
        let tableName :=
          match tableNameMethod with
          | some n => n
          | none =>
              let tn := toDBName name
              match db with
              | some d => if d.singularTable then tn else pluralize tn
              | none => pluralize tn
        let (fields, pkIdx, db') := processFields scopeType rawFields db
        let (fields, pkIdx) := postPassFields db' fields pkIdx 0
        let m : LModelStruct :=
          { primaryKeyField := pkIdx.bind (fun i => fields[i]?),
            structFields := fields, tableName := tableName }
        match db' with
        | some d =>
            (m, some { d with modelStructs := (scopeType, m) :: d.modelStructs })
        | none => (m, none)
    | _ => (emptyModelStruct, db)
termination_by sizeOf t
decreasing_by
  have h1 := sizeOf_scopeTypeOf_le t
  rw [hst] at h1
  simp at h1
  omega

/-- The exported-field loop of model_struct.go:160-290, threading the
handle (embedded structs recurse through `GetModelStruct` and so read and
populate the memoization map).  Returns the accumulated `StructFields`,
the index of the loop-designated primary-key field, and the handle. -/
def processFields (scopeType : GoType) (l : List GoFieldT)
    (db : Option LDB) : List LStructField × Option Nat × Option LDB :=
  match l with
  | [] => ([], none, db)
  | f :: fs =>
      if isExportedName (fieldName f) then
        let field := freshStructField f
        let (block, localPk, db') :=
          if fieldDash f then
            ([{ field with isIgnored := true }], none, db)
          else
            let hasPkTag := (tagGet (fieldTagGorm f) "PRIMARY_KEY").isSome
            let field := { field with
              isPrimaryKey := hasPkTag,
              hasDefaultValue := (tagGet (fieldTagSql f) "DEFAULT").isSome,
              dbName := match tagGet (fieldTagGorm f) "COLUMN" with
                | some v => v
                | none => toDBName (fieldName f) }
            let indirectT := indirectType (fieldTyp f)
            let field :=
              if (fieldTyp f).isScannerType then
                { field with isScanner := true, isNormal := true }
              else field
            let field :=
              if indirectT.isTimeType then { field with isNormal := true }
              else field
            let many2many := tagGetD (fieldTagGorm f) "MANY2MANY"
            let foreignKey := tagGetD (fieldTagGorm f) "FOREIGNKEY"
            let foreignType := tagGetD (fieldTagGorm f) "FOREIGNTYPE"
            let associationForeignKey :=
              tagGetD (fieldTagGorm f) "ASSOCIATIONFOREIGNKEY"
            let polymorphic := tagGetD (fieldTagGorm f) "POLYMORPHIC"
            let (foreignKey, foreignType) :=
              if polymorphic ≠ "" then
                (polymorphic ++ "Id", polymorphic ++ "Type")
              else (foreignKey, foreignType)
            if field.isNormal = false then
              if indirectT.isSliceKind then
                let typ := indirectType (sliceElem indirectT)
                if typ.isStructKind then
                  let foreignKey :=
                    if foreignKey = "" then scopeType.nameOf ++ "Id"
                    else foreignKey
                  let associationForeignKey :=
                    if associationForeignKey = "" then typ.nameOf ++ "Id"
                    else associationForeignKey
                  let (kind, foreignKey) :=
                    if many2many ≠ "" then ("many_to_many", foreignKey)
                    else if typ.hasFieldNamed foreignKey = false then
                      ("has_many", "")
                    else ("has_many", foreignKey)
                  let rel : LRelationship :=
                    { joinTable := many2many,
                      foreignType := foreignType,
                      foreignFieldName := foreignKey,
                      associationForeignFieldName := associationForeignKey,
                      foreignDBName := toDBName foreignKey,
                      associationForeignDBName :=
                        toDBName associationForeignKey,
                      kind := kind }
                  let field := { field with relationship := some rel }
                  ([field], if hasPkTag then some 0 else none, db)
                else
                  ([{ field with isNormal := true }],
                    if hasPkTag then some 0 else none, db)
              else if indirectT.isStructKind then
                if (tagGet (fieldTagGorm f) "EMBEDDED").isSome ∨ fieldAnon f then
                  -- scope.New(reflect.New(indirectType).Interface())
                  -- .GetStructFields(): the embedded struct's own model,
                  -- computed through the same memoizing entry point
                  let (subModel, db') := getModelStruct indirectT db
                  let spliced := subModel.structFields.map
                    (fun sf => { sf with names := fieldName f :: sf.names })
                  (spliced ++ [field],
                    if hasPkTag then some spliced.length else none, db')
                else
                  let belongsToForeignKey :=
                    if foreignKey = "" then fieldName f ++ "Id"
                    else foreignKey
                  let hasOneForeignKey :=
                    if foreignKey = "" then scopeType.nameOf ++ "Id"
                    else foreignKey
                  let (kind, foreignKey) :=
                    if scopeType.hasFieldNamed belongsToForeignKey then
                      ("belongs_to", belongsToForeignKey)
                    else ("has_one", hasOneForeignKey)
                  let rel : LRelationship :=
                    { joinTable := "",
                      foreignType := foreignType,
                      foreignFieldName := foreignKey,
                      associationForeignFieldName := "",
                      foreignDBName := toDBName foreignKey,
                      associationForeignDBName := "",
                      kind := kind }
                  let field := { field with relationship := some rel }
                  ([field], if hasPkTag then some 0 else none, db)
              else
                ([{ field with isNormal := true }],
                  if hasPkTag then some 0 else none, db)
            else
              ([field], if hasPkTag then some 0 else none, db)
        let (restFields, restPk, db'') := processFields scopeType fs db'
        (block ++ restFields, mergePk block.length localPk restPk, db'')
      else
        processFields scopeType fs db
termination_by sizeOf l
decreasing_by
  all_goals
    first
      | (obtain ⟨n1, a1, d1, ts1, tg1, ty1⟩ := f
         have h1 := sizeOf_indirectType_le (fieldTyp (n1, a1, d1, ts1, tg1, ty1))
         simp [fieldTyp] at h1 ⊢
         omega)
      | (simp
         try omega)

end

/-! ## Migration DDL (scope_private.go:434-460, 505-522)

The statements `scope.Raw(...).Exec()` hands to the execution collaborator
are collected in emission order. -/

/-- `scope.createJoinTable(field)` (scope_private.go:434-448): one
`CREATE TABLE` for the relationship's join table when one is named and
absent; `pkSqlType` is the dialect's type for the scope's primary-key field
(`scope.Dialect().SqlTag(scope.PrimaryKeyField().Field, 255)`). -/
def createJoinTableSqls (d : LDialect) (pkSqlType : String)
    (f : LStructField) : List String :=
  match f.relationship with
  | some rel =>
      if rel.joinTable ≠ "" then
        if d.hasTable rel.joinTable then []
        else
          ["CREATE TABLE " ++ rel.joinTable ++ " (" ++
            quoteId rel.foreignDBName ++ " " ++ pkSqlType ++ "," ++
            quoteId rel.associationForeignDBName ++ " " ++ pkSqlType ++ ")"]
      else []
  | none => []

/-- `scope.createTable()` (scope_private.go:450-460): the join-table
statements are emitted inside the field loop, then the table's own
`CREATE TABLE` over the plain (`IsNormal`) columns. -/
def createTableSqls (d : LDialect) (pkSqlType : String) (tableName : String)
    (fields : List LStructField) : List String :=
  (fields.flatMap (createJoinTableSqls d pkSqlType)) ++
    ["CREATE TABLE " ++ quoteId tableName ++ " (" ++
      String.intercalate ","
        ((fields.filter (fun f => f.isNormal)).map
          (fun f => quoteId f.dbName ++ " " ++ f.sqlTag)) ++ ")"]

/-- The `ALTER TABLE ... ADD` statement of scope_private.go:515. -/
def alterAddColumnSql (tableName : String) (f : LStructField) : String :=
  "ALTER TABLE " ++ quoteId tableName ++ " ADD " ++ f.dbName ++ " " ++
    f.sqlTag ++ ";"

/-- `scope.autoMigrate()` (scope_private.go:505-522): create the table when
it is absent; otherwise, per declared field in order, add the column when
it is missing and the field is a plain column, and create any missing join
table. -/
def autoMigrateSqls (d : LDialect) (pkSqlType : String) (tableName : String)
    (fields : List LStructField) : List String :=
  if d.hasTable tableName then
    fields.flatMap (fun f =>
      (if d.hasColumn tableName f.dbName then []
       else if f.isNormal then [alterAddColumnSql tableName f]
       else []) ++
      createJoinTableSqls d pkSqlType f)
  else
    createTableSqls d pkSqlType tableName fields

/-! ## Statement vocabulary: scan-prefix -/

/-- `ScanPre l tags`: the character list `l` is a complete piece of
rendered SQL whose value markers, read left to right, are exactly `tags` —
stated compositionally: scanning `l` followed by anything yields `tags`
prepended to the rest's markers. -/
def ScanPre (l : List Char) (tags : List Nat) : Prop :=
  ∀ b, tagScan (l ++ b) none = (tagScan b none).map (fun y => tags ++ y)

/-! ## Concrete instances used by witnesses and counterexamples -/

/-- A scope combining a bound-value or-clause with a bound-value
not-clause: `whereSql` binds the or-clause values before the not-clause
values but renders the not-clauses first. -/
def exScopeMixed : Scope :=
  { primaryKey := "id", tableName := "users", hasDeletedAtField := false,
    primaryKeyIsZero := true, primaryKeyVal := .vint 0,
    search := { whereConditions := [],
                orConditions :=
                  [⟨.qstr "a = ?", some [.scalar (.vint 1)]⟩],
                notConditions :=
                  [⟨.qstr "b > ?", some [.scalar (.vint 2)]⟩],
                unscope := false } }

/-- A well-formed scope exercising every binding shape: soft delete,
non-zero primary key, a string where-clause, a slice where-clause and a
plain-column not-clause. -/
def exScopeOrdered : Scope :=
  { primaryKey := "id", tableName := "users", hasDeletedAtField := true,
    primaryKeyIsZero := false, primaryKeyVal := .vint 7,
    search := { whereConditions :=
                  [⟨.qstr "name = ?", some [.scalar (.vstr "bob")]⟩,
                   ⟨.qvalList [.vint 1, .vint 2, .vint 3], none⟩],
                orConditions := [],
                notConditions :=
                  [⟨.qstr "role", some [.scalar (.vstr "admin")]⟩],
                unscope := false } }

/-- The rendered output of `whereSql` on `exScopeOrdered`. -/
def exScopeOrderedOut : String × List GoVal :=
  (whereSql exScopeOrdered []).getD ("", [])

/-- A string where-clause carrying no `args` entry. -/
def exClauseNoArgs : Clause := { query := .qstr "name = ?", args := none }

/-- A plain declared column for the migration examples. -/
def mkPlainField (n tag : String) : LStructField :=
  { dbName := n, name := n, names := [n], isPrimaryKey := false,
    isNormal := true, isIgnored := false, isScanner := false,
    hasDefaultValue := false, sqlTag := tag, tagSql := [], tagGorm := [],
    typ := .base false false, relationship := none }

/-- Three plain columns; the migration dialect below reports `name` and
`age` as missing. -/
def exFields : List LStructField :=
  [mkPlainField "id" "integer", mkPlainField "name" "varchar(255)",
   mkPlainField "age" "integer"]

/-- A dialect whose database has a `users` table carrying only the `id`
column, and no `orders` table. -/
def exDialect : LDialect :=
  { sqlTagFn := fun _ _ => "varchar(255)",
    primaryKeyTagFn := fun _ _ => "integer primary key",
    hasTable := fun n => n == "users",
    hasColumn := fun _ c => c == "id" }

/-! ## Lemmas: `String.intercalate` at the character level -/

theorem string_data_append (a b : String) : (a ++ b).data = a.data ++ b.data :=
  rfl

theorem intercalate_go_data (s : String) :
    ∀ (as : List String) (acc : String),
      (String.intercalate.go acc s as).data =
        acc.data ++ as.flatMap (fun x => s.data ++ x.data)
  | [], acc => by simp [String.intercalate.go]
  | a :: as, acc => by
      rw [String.intercalate.go, intercalate_go_data s as (acc ++ s ++ a)]
      simp [string_data_append]

theorem intercalate_cons_data (s a : String) (as : List String) :
    (String.intercalate s (a :: as)).data =
      a.data ++ as.flatMap (fun x => s.data ++ x.data) := by
  rw [String.intercalate, intercalate_go_data]

theorem intercalate_nil (s : String) : String.intercalate s [] = "" := rfl

/-! ## Lemmas: the marker scanner -/

theorem tagScan_no_q :
    ∀ (l : List Char) (st : Option Nat) (x : List Nat),
      tagScan l st = some x → '?' ∉ l := by
  intro l
  induction l with
  | nil => intro st x _ h; simp at h
  | cons c cs ih =>
      intro st x hscan hmem
      rcases List.mem_cons.mp hmem with hc | hc
      · subst hc
        match st with
        | none =>
            rw [tagScan] at hscan
            split at hscan
            · rename_i h; exact absurd h (by decide)
            · split at hscan
              · exact Option.noConfusion hscan
              · rename_i h h2; exact h2 (Or.inr (Or.inr rfl))
        | some k =>
            rw [tagScan] at hscan
            split at hscan
            · rename_i h; exact absurd h (by decide)
            · split at hscan
              · rename_i h h2; exact absurd h2 (by decide)
              · exact Option.noConfusion hscan
      · match st with
        | none =>
            rw [tagScan] at hscan
            split at hscan
            · exact ih _ _ hscan hc
            · split at hscan
              · exact Option.noConfusion hscan
              · exact ih _ _ hscan hc
        | some k =>
            rw [tagScan] at hscan
            split at hscan
            · exact ih _ _ hscan hc
            · split at hscan
              · rcases Option.map_eq_some'.mp hscan with ⟨y, hy, _⟩
                exact ih _ _ hy hc
              · exact Option.noConfusion hscan

theorem tagScan_append :
    ∀ (a : List Char) (st : Option Nat) (x : List Nat),
      tagScan a st = some x →
      ∀ b, tagScan (a ++ b) st = (tagScan b none).map (fun y => x ++ y) := by
  intro a
  induction a with
  | nil =>
      intro st x hscan b
      match st with
      | none =>
          rw [tagScan] at hscan
          cases hscan
          cases h : tagScan b none <;> simp [h]
      | some k => simp [tagScan] at hscan
  | cons c cs ih =>
      intro st x hscan b
      match st with
      | none =>
          rw [tagScan] at hscan
          rw [List.cons_append, tagScan]
          split at hscan
          · rename_i h; rw [if_pos h]; exact ih _ _ hscan b
          · split at hscan
            · exact Option.noConfusion hscan
            · rename_i h h2
              rw [if_neg h, if_neg h2]
              exact ih _ _ hscan b
      | some k =>
          rw [tagScan] at hscan
          rw [List.cons_append, tagScan]
          split at hscan
          · rename_i h; rw [if_pos h]; exact ih _ _ hscan b
          · split at hscan
            · rename_i h h2
              rw [if_neg h, if_pos h2]
              rcases Option.map_eq_some'.mp hscan with ⟨y, hy, hxy⟩
              rw [ih _ _ hy b]
              cases htb : tagScan b none <;> simp [htb, ← hxy]
            · exact Option.noConfusion hscan

theorem tagScan_plain_front :
    ∀ (l : List Char), l.all plainQChar = true →
      ∀ b, tagScan (l ++ b) none = tagScan b none := by
  intro l
  induction l with
  | nil => intro _ b; rfl
  | cons c cs ih =>
      intro hall b
      rw [List.all_cons, Bool.and_eq_true] at hall
      obtain ⟨hc, hcs⟩ := hall
      rw [plainQChar] at hc
      simp only [Bool.and_eq_true, decide_eq_true_eq] at hc
      rw [List.cons_append, tagScan]
      rw [if_neg (by tauto), if_neg (by tauto)]
      exact ih hcs b

theorem tagScan_replicate_pay :
    ∀ (k j : Nat) (b : List Char),
      tagScan (List.replicate k markPayChar ++ b) (some j) =
        tagScan b (some (j + k)) := by
  intro k
  induction k with
  | zero => intro j b; simp
  | succ k ih =>
      intro j b
      rw [List.replicate_succ, List.cons_append, tagScan, if_pos rfl, ih]
      congr 2
      omega

theorem tagScan_marker (n : Nat) (b : List Char) :
    tagScan ((markerStr n).data ++ b) none =
      (tagScan b none).map (fun y => n :: y) := by
  show tagScan ((markOpenChar :: (List.replicate n markPayChar ++
    [markCloseChar])) ++ b) none = _
  rw [List.cons_append, tagScan, if_pos rfl, List.append_assoc,
    tagScan_replicate_pay, List.cons_append, tagScan]
  rw [if_neg (by decide), if_pos rfl]
  simp

/-! ## Lemmas: the `ScanPre` combinators -/

theorem ScanPre.scan {l : List Char} {tags : List Nat}
    (h : ScanPre l tags) : tagScan l none = some tags := by
  have h2 := h []
  rw [List.append_nil] at h2
  simp [tagScan] at h2
  exact h2

theorem ScanPre.nil : ScanPre [] [] := by
  intro b
  cases h : tagScan b none <;> simp [h]

theorem ScanPre.append {a b : List Char} {t1 t2 : List Nat}
    (h1 : ScanPre a t1) (h2 : ScanPre b t2) :
    ScanPre (a ++ b) (t1 ++ t2) := by
  intro c
  rw [List.append_assoc, h1 (b ++ c), h2 c]
  cases h : tagScan c none <;> simp

theorem ScanPre.plain {l : List Char} (h : l.all plainQChar = true) :
    ScanPre l [] := by
  intro b
  rw [tagScan_plain_front l h b]
  cases h2 : tagScan b none <;> simp

theorem ScanPre.marker (n : Nat) : ScanPre (markerStr n).data [n] :=
  fun b => tagScan_marker n b

theorem ScanPre.no_q {l : List Char} {tags : List Nat}
    (h : ScanPre l tags) : '?' ∉ l :=
  tagScan_no_q l none tags h.scan

theorem ScanPre.empty_tags {tags : List Nat} (h : ScanPre [] tags) :
    tags = [] := by
  have := h.scan
  simp [tagScan] at this
  exact this

/-! ## Lemmas: finalization counts one `?` per marker -/

theorem tagScan_finalize_count :
    ∀ (l : List Char) (st : Option Nat) (x : List Nat),
      tagScan l st = some x →
      (l.filterMap finalizeChar?).count '?' +
        (match st with | none => 0 | some _ => 1) = x.length := by
  intro l
  induction l with
  | nil =>
      intro st x hscan
      match st with
      | none => rw [tagScan] at hscan; cases hscan; simp
      | some k => simp [tagScan] at hscan
  | cons c cs ih =>
      intro st x hscan
      match st with
      | none =>
          rw [tagScan] at hscan
          split at hscan
          · rename_i h
            subst h
            have := ih _ _ hscan
            have hq : finalizeChar? markOpenChar = some '?' := by decide
            rw [List.filterMap_cons, hq]
            simp [List.count_cons] at this ⊢
            omega
          · split at hscan
            · exact Option.noConfusion hscan
            · rename_i h h2
              have := ih _ _ hscan
              rw [List.filterMap_cons]
              have hkeep : finalizeChar? c = some c := by
                rw [finalizeChar?, if_neg h, if_neg (by tauto)]
              have hcq : ¬ (c = '?') := by tauto
              rw [hkeep]
              simp [List.count_cons, hcq] at this ⊢
              omega
      | some k =>
          rw [tagScan] at hscan
          split at hscan
          · rename_i h
            subst h
            have := ih _ _ hscan
            rw [List.filterMap_cons]
            have hdrop : finalizeChar? markPayChar = none := by decide
            rw [hdrop]
            simpa using this
          · split at hscan
            · rename_i h h2
              subst h2
              rcases Option.map_eq_some'.mp hscan with ⟨y, hy, hxy⟩
              have := ih _ _ hy
              rw [List.filterMap_cons]
              have hdrop : finalizeChar? markCloseChar = none := by decide
              rw [hdrop]
              subst hxy
              simp at this ⊢
              omega
            · exact Option.noConfusion hscan

theorem countQ_finalize {s : String} {x : List Nat}
    (h : tagsOfQ s = some x) : countQ (finalizeSql s) = x.length := by
  have := tagScan_finalize_count s.data none x h
  simpa [countQ, finalizeSql] using this

/-! ## Lemmas: first-`?` replacement -/

theorem rfq_no_q_before_hit :
    ∀ (a : List Char), '?' ∉ a →
      ∀ (b r : List Char), rfq (a ++ b) r = a ++ rfq b r := by
  intro a
  induction a with
  | nil => intro _ b r; rfl
  | cons c cs ih =>
      intro hmem b r
      rw [List.cons_append, rfq, if_neg (by
        intro hc; exact hmem (hc ▸ List.mem_cons_self c cs))]
      rw [ih (fun h => hmem (List.mem_cons_of_mem c h)) b r]
      rfl

theorem rfq_hit {a : List Char} (ha : '?' ∉ a) (b r : List Char) :
    rfq (a ++ '?' :: b) r = a ++ r ++ b := by
  rw [rfq_no_q_before_hit a ha ('?' :: b) r, rfq, if_pos rfl, List.append_assoc]

theorem exists_first_q :
    ∀ (l : List Char), '?' ∈ l →
      ∃ a b, l = a ++ '?' :: b ∧ '?' ∉ a := by
  intro l
  induction l with
  | nil => intro h; simp at h
  | cons c cs ih =>
      intro hmem
      by_cases hc : c = '?'
      · exact ⟨[], cs, by rw [hc]; rfl, by simp⟩
      · rcases List.mem_cons.mp hmem with h | h
        · exact absurd h.symm hc
        · rcases ih h with ⟨a, b, hab, hna⟩
          exact ⟨c :: a, b, by rw [hab]; rfl, by
            intro hx
            rcases List.mem_cons.mp hx with h2 | h2
            · exact hc h2.symm
            · exact hna h2⟩

/-! ## Lemmas: rendered integers are plain text -/

theorem plain_digitChar (m : Nat) (h : m < 10) :
    plainQChar (Nat.digitChar m) = true := by
  interval_cases m <;> decide

theorem plain_toDigitsCore :
    ∀ (f n : Nat) (acc : List Char), acc.all plainQChar = true →
      (Nat.toDigitsCore 10 f n acc).all plainQChar = true := by
  intro f
  induction f with
  | zero => intro n acc h; exact h
  | succ f ih =>
      intro n acc h
      rw [Nat.toDigitsCore]
      have hd : ((Nat.digitChar (n % 10)) :: acc).all plainQChar = true := by
        rw [List.all_cons, plain_digitChar (n % 10) (Nat.mod_lt n (by omega)), h]
        rfl
      split
      · exact hd
      · exact ih _ _ hd

theorem plain_natRepr (n : Nat) : plainStr (Nat.repr n) = true := by
  rw [plainStr]
  show (Nat.toDigits 10 n).all plainQChar = true
  exact plain_toDigitsCore _ _ [] rfl

theorem plain_intToString (n : Int) : plainStr (toString n) = true := by
  match n with
  | .ofNat m => exact plain_natRepr m
  | .negSucc m =>
      show plainStr ("-" ++ Nat.repr (m + 1)) = true
      have h2 := plain_natRepr (m + 1)
      rw [plainStr] at h2
      rw [plainStr, string_data_append, List.all_append, h2]
      decide

/-! ## Lemmas: plainness bookkeeping -/

theorem plain_of_noRes_noQ {l : List Char} (h1 : l.all noResChar = true)
    (h2 : '?' ∉ l) : l.all plainQChar = true := by
  rw [List.all_eq_true] at h1 ⊢
  intro c hc
  have := h1 c hc
  rw [noResChar] at this
  rw [plainQChar]
  simp only [Bool.and_eq_true, decide_eq_true_eq] at this ⊢
  have hcq : c ≠ '?' := fun hcq => h2 (hcq ▸ hc)
  tauto

theorem ScanPre.congr_tags {l : List Char} {t1 t2 : List Nat}
    (h : ScanPre l t1) (ht : t1 = t2) : ScanPre l t2 := ht ▸ h

theorem string_eta (s : String) : (⟨s.data⟩ : String) = s := rfl

theorem range'_glue (a n m : Nat) :
    List.range' a n ++ List.range' (a + n) m = List.range' a (n + m) := by
  rw [List.range'_append_1]
  congr 1
  omega

/-! ## Lemmas: unfolding equations for the argument loops -/

theorem processWhereArgs_nil (s : String) (vars : List GoVal) :
    processWhereArgs [] s vars = (s, vars) := rfl

theorem processWhereArgs_scalar (v : GoVal) (rest : List QArg) (s : String)
    (vars : List GoVal) :
    processWhereArgs (.scalar v :: rest) s vars =
      processWhereArgs rest (replaceFirstQ s (markerStr (vars.length + 1)))
        (vars ++ [v]) := by
  simp [processWhereArgs, addToVars]

theorem processWhereArgs_arr (vs : List GoVal) (rest : List QArg)
    (s : String) (vars : List GoVal) :
    processWhereArgs (.arr vs :: rest) s vars =
      processWhereArgs rest
        (replaceFirstQ s (String.intercalate "," (expandMarks vs vars).1))
        (expandMarks vs vars).2 := by
  rw [processWhereArgs]

theorem processNotArgs_nil (t s : String) (vars : List GoVal) :
    processNotArgs t [] s vars = (s, vars) := rfl

theorem processNotArgs_scalar (t : String) (v : GoVal) (rest : List QArg)
    (s : String) (vars : List GoVal) :
    processNotArgs t (.scalar v :: rest) s vars =
      processNotArgs t rest (replaceFirstQ t (markerStr (vars.length + 1)))
        (vars ++ [v]) := by
  simp [processNotArgs, addToVars]

theorem processNotArgs_arr (t : String) (vs : List GoVal) (rest : List QArg)
    (s : String) (vars : List GoVal) :
    processNotArgs t (.arr vs :: rest) s vars =
      processNotArgs t rest
        (replaceFirstQ s (String.intercalate "," (expandMarks vs vars).1))
        (expandMarks vs vars).2 := by
  rw [processNotArgs]

/-! ## Lemmas: comma-joined marker expansion -/

theorem expandMarks_flat_scan :
    ∀ (vs vars : List GoVal),
      (expandMarks vs vars).2 = vars ++ vs ∧
      ScanPre ((expandMarks vs vars).1.flatMap
          (fun x => ("," : String).data ++ x.data))
        (List.range' (vars.length + 1) vs.length) := by
  intro vs
  induction vs with
  | nil =>
      intro vars
      exact ⟨by simp [expandMarks], by simpa using ScanPre.nil⟩
  | cons v rest ih =>
      intro vars
      have hstep : expandMarks (v :: rest) vars =
          (markerStr (vars.length + 1) :: (expandMarks rest (vars ++ [v])).1,
            (expandMarks rest (vars ++ [v])).2) := by
        simp [expandMarks, addToVars]
      rcases ih (vars ++ [v]) with ⟨ih1, ih2⟩
      constructor
      · rw [hstep]
        simpa using ih1
      · rw [hstep]
        rw [List.flatMap_cons]
        have hm : ScanPre (("," : String).data ++
            (markerStr (vars.length + 1)).data) [vars.length + 1] :=
          (ScanPre.plain (by decide)).append (ScanPre.marker _)
        have hfull := hm.append ih2
        apply hfull.congr_tags
        have hlen : (vars ++ [v]).length + 1 = vars.length + 1 + 1 := by simp
        rw [hlen, show (v :: rest).length = rest.length + 1 from rfl,
          List.range'_succ]
        simp

theorem expandMarks_spec (vs vars : List GoVal) :
    (expandMarks vs vars).2 = vars ++ vs ∧
    ScanPre (String.intercalate "," (expandMarks vs vars).1).data
      (List.range' (vars.length + 1) vs.length) := by
  cases vs with
  | nil =>
      exact ⟨by simp [expandMarks], by simpa using ScanPre.nil⟩
  | cons v rest =>
      have hstep : expandMarks (v :: rest) vars =
          (markerStr (vars.length + 1) :: (expandMarks rest (vars ++ [v])).1,
            (expandMarks rest (vars ++ [v])).2) := by
        simp [expandMarks, addToVars]
      rcases expandMarks_flat_scan rest (vars ++ [v]) with ⟨ih1, ih2⟩
      constructor
      · rw [hstep]
        simpa using ih1
      · rw [hstep, intercalate_cons_data]
        have hfull := (ScanPre.marker (vars.length + 1)).append ih2
        apply hfull.congr_tags
        have hlen : (vars ++ [v]).length + 1 = vars.length + 1 + 1 := by simp
        rw [hlen, show (v :: rest).length = rest.length + 1 from rfl,
          List.range'_succ]
        simp

/-! ## Lemmas: the where-argument substitution loop -/

theorem count_append_split {R R1 R2 : List Char} (h : R = R1 ++ '?' :: R2)
    (h1 : '?' ∉ R1) : R.count '?' = R2.count '?' + 1 := by
  subst h
  rw [List.count_append, List.count_cons]
  rw [List.count_eq_zero.mpr h1]
  simp

theorem all_noRes_split {R R1 R2 : List Char} (h : R = R1 ++ '?' :: R2)
    (hall : R.all noResChar = true) :
    R1.all noResChar = true ∧ R2.all noResChar = true := by
  subst h
  rw [List.all_append, List.all_cons] at hall
  simp only [Bool.and_eq_true] at hall
  exact ⟨hall.1, hall.2.2⟩

theorem mem_q_of_count_pos {R : List Char} (h : 0 < R.count '?') :
    '?' ∈ R := by
  by_contra hmem
  rw [List.count_eq_zero.mpr hmem] at h
  exact Nat.lt_irrefl 0 h

theorem processWhereArgs_spec :
    ∀ (args : List QArg) (s : String) (D R : List Char) (tags : List Nat)
      (vars : List GoVal),
      s.data = D ++ R →
      ScanPre D tags →
      R.all noResChar = true →
      R.count '?' = args.length →
      (processWhereArgs args s vars).2 = vars ++ argsVals args ∧
      ScanPre (processWhereArgs args s vars).1.data
        (tags ++ List.range' (vars.length + 1) (argsVals args).length) := by
  intro args
  induction args with
  | nil =>
      intro s D R tags vars hs hD hR hcount
      rw [processWhereArgs_nil]
      constructor
      · simp [argsVals]
      · have hq : '?' ∉ R := by
          rw [← List.count_eq_zero]
          simpa using hcount
        have := hD.append (ScanPre.plain (plain_of_noRes_noQ hR hq))
        rw [← hs] at this
        apply this.congr_tags
        simp [argsVals]
  | cons a rest ih =>
      intro s D R tags vars hs hD hR hcount
      have hqmem : '?' ∈ R := by
        apply mem_q_of_count_pos
        rw [hcount]
        simp
      rcases exists_first_q R hqmem with ⟨R1, R2, hsplit, hR1⟩
      have hcnt : R2.count '?' = rest.length := by
        have h3 := count_append_split hsplit hR1
        rw [hcount] at h3
        simp at h3
        omega
      rcases all_noRes_split hsplit hR with ⟨hR1n, hR2n⟩
      have hDq : '?' ∉ D := hD.no_q
      have hR1p : R1.all plainQChar = true := plain_of_noRes_noQ hR1n hR1
      have hDR1 : '?' ∉ D ++ R1 := by
        intro hmem
        rcases List.mem_append.mp hmem with h | h
        · exact hDq h
        · exact hR1 h
      match a with
      | .scalar v =>
          rw [processWhereArgs_scalar]
          have hnew : (replaceFirstQ s (markerStr (vars.length + 1))).data =
              (D ++ R1 ++ (markerStr (vars.length + 1)).data) ++ R2 := by
            show rfq s.data (markerStr (vars.length + 1)).data = _
            rw [hs, hsplit, ← List.append_assoc, rfq_hit hDR1]
          have hD2 : ScanPre (D ++ R1 ++ (markerStr (vars.length + 1)).data)
              (tags ++ [vars.length + 1]) := by
            have h4 := (hD.append (ScanPre.plain hR1p)).append
              (ScanPre.marker (vars.length + 1))
            apply h4.congr_tags
            simp
          rcases ih (replaceFirstQ s (markerStr (vars.length + 1)))
            (D ++ R1 ++ (markerStr (vars.length + 1)).data) R2
            (tags ++ [vars.length + 1]) (vars ++ [v]) hnew hD2 hR2n hcnt
            with ⟨h1, h2⟩
          constructor
          · rw [h1]
            simp [argsVals, argVals]
          · apply h2.congr_tags
            have hlen : (vars ++ [v]).length + 1 = vars.length + 1 + 1 := by
              simp
            rw [hlen]
            have hav : argsVals (QArg.scalar v :: rest) = v :: argsVals rest := by
              simp [argsVals, argVals]
            rw [hav,
              show (v :: argsVals rest).length = (argsVals rest).length + 1
                from rfl,
              List.range'_succ]
            simp
      | .arr vs =>
          rw [processWhereArgs_arr]
          rcases expandMarks_spec vs vars with ⟨he1, he2⟩
          have hnew : (replaceFirstQ s
              (String.intercalate "," (expandMarks vs vars).1)).data =
              (D ++ R1 ++
                (String.intercalate "," (expandMarks vs vars).1).data) ++
                R2 := by
            show rfq s.data _ = _
            rw [hs, hsplit, ← List.append_assoc, rfq_hit hDR1]
          have hD2 : ScanPre (D ++ R1 ++
              (String.intercalate "," (expandMarks vs vars).1).data)
              (tags ++ List.range' (vars.length + 1) vs.length) := by
            have h4 := (hD.append (ScanPre.plain hR1p)).append he2
            apply h4.congr_tags
            simp
          rcases ih (replaceFirstQ s
              (String.intercalate "," (expandMarks vs vars).1))
            (D ++ R1 ++ (String.intercalate "," (expandMarks vs vars).1).data)
            R2 (tags ++ List.range' (vars.length + 1) vs.length)
            (expandMarks vs vars).2 hnew hD2 hR2n hcnt with ⟨h1, h2⟩
          rw [he1] at h1 h2
          constructor
          · rw [he1, h1]
            simp [argsVals, argVals]
          · rw [he1]
            apply h2.congr_tags
            rw [List.append_assoc]
            congr 1
            have hlen : (vars ++ vs).length + 1 =
                (vars.length + 1) + vs.length := by
              simp
              omega
            rw [hlen, range'_glue]
            congr 1
            simp [argsVals, argVals]

/-! ## Lemmas: per-key equality conditions -/

theorem plainStr_append (a b : String) :
    plainStr (a ++ b) = (plainStr a && plainStr b) := by
  rw [plainStr, plainStr, plainStr, string_data_append, List.all_append]

theorem plain_quoteId {k : String} (h : plainStr k = true) :
    plainStr (quoteId k) = true := by
  rw [quoteId, plainStr_append, plainStr_append, h]
  decide

theorem ScanPre_condEntry {k op : String} (hk : plainStr k = true)
    (hop : plainStr op = true) (n : Nat) :
    ScanPre ("(" ++ (quoteId k ++ (op ++ (markerStr n ++ ")")))).data [n] := by
  have h := (ScanPre.plain (l := ("(" : String).data) (by decide)).append
    ((ScanPre.plain (l := (quoteId k).data) (plain_quoteId hk)).append
      ((ScanPre.plain (l := op.data) hop).append
        ((ScanPre.marker n).append
          (ScanPre.plain (l := (")" : String).data) (by decide)))))
  apply h.congr_tags
  simp

theorem condEntry_assoc (k op m : String) :
    "(" ++ quoteId k ++ op ++ m ++ ")" =
      "(" ++ (quoteId k ++ (op ++ (m ++ ")"))) := by
  simp [String.append_assoc]

theorem condPairSqls_flat_scan (op : String) (hop : plainStr op = true) :
    ∀ (kvs : List (String × GoVal)) (vars : List GoVal),
      kvs.all (fun kv => plainStr kv.1) = true →
      (condPairSqls op kvs vars).2 = vars ++ kvs.map (fun kv => kv.2) ∧
      ScanPre ((condPairSqls op kvs vars).1.flatMap
          (fun x => (" AND " : String).data ++ x.data))
        (List.range' (vars.length + 1) kvs.length) := by
  intro kvs
  induction kvs with
  | nil =>
      intro vars _
      exact ⟨by simp [condPairSqls], by simpa using ScanPre.nil⟩
  | cons kv rest ih =>
      intro vars hall
      rw [List.all_cons, Bool.and_eq_true] at hall
      rcases kv with ⟨k, v⟩
      have hstep : condPairSqls op ((k, v) :: rest) vars =
          (("(" ++ quoteId k ++ op ++ markerStr (vars.length + 1) ++ ")") ::
            (condPairSqls op rest (vars ++ [v])).1,
            (condPairSqls op rest (vars ++ [v])).2) := by
        simp [condPairSqls, addToVars]
      rcases ih (vars ++ [v]) hall.2 with ⟨ih1, ih2⟩
      constructor
      · rw [hstep]
        simpa using ih1
      · rw [hstep, List.flatMap_cons]
        have hent : ScanPre ((" AND " : String).data ++
            ("(" ++ quoteId k ++ op ++ markerStr (vars.length + 1) ++
              ")").data) [vars.length + 1] := by
          rw [condEntry_assoc]
          exact ((ScanPre.plain (by decide)).append
            (ScanPre_condEntry hall.1 hop (vars.length + 1))).congr_tags
            (by simp)
        have hfull := hent.append ih2
        apply hfull.congr_tags
        have hlen : (vars ++ [v]).length + 1 = vars.length + 1 + 1 := by simp
        rw [hlen, show ((k, v) :: rest).length = rest.length + 1 from rfl,
          List.range'_succ]
        simp

theorem condPairSqls_spec (op : String) (hop : plainStr op = true)
    (kvs : List (String × GoVal)) (vars : List GoVal)
    (hall : kvs.all (fun kv => plainStr kv.1) = true) :
    (condPairSqls op kvs vars).2 = vars ++ kvs.map (fun kv => kv.2) ∧
    ScanPre (String.intercalate " AND " (condPairSqls op kvs vars).1).data
      (List.range' (vars.length + 1) kvs.length) := by
  cases kvs with
  | nil =>
      exact ⟨by simp [condPairSqls], by simpa using ScanPre.nil⟩
  | cons kv rest =>
      rw [List.all_cons, Bool.and_eq_true] at hall
      rcases kv with ⟨k, v⟩
      have hstep : condPairSqls op ((k, v) :: rest) vars =
          (("(" ++ quoteId k ++ op ++ markerStr (vars.length + 1) ++ ")") ::
            (condPairSqls op rest (vars ++ [v])).1,
            (condPairSqls op rest (vars ++ [v])).2) := by
        simp [condPairSqls, addToVars]
      rcases condPairSqls_flat_scan op hop rest (vars ++ [v]) hall.2 with
        ⟨ih1, ih2⟩
      constructor
      · rw [hstep]
        simpa using ih1
      · rw [hstep, intercalate_cons_data]
        have hent : ScanPre
            ("(" ++ quoteId k ++ op ++ markerStr (vars.length + 1) ++
              ")").data [vars.length + 1] := by
          rw [condEntry_assoc]
          exact ScanPre_condEntry hall.1 hop (vars.length + 1)
        have hfull := hent.append ih2
        apply hfull.congr_tags
        have hlen : (vars ++ [v]).length + 1 = vars.length + 1 + 1 := by simp
        rw [hlen, show ((k, v) :: rest).length = rest.length + 1 from rfl,
          List.range'_succ]
        simp

/-! ## Lemmas: per-field equality conditions (blank fields skipped) -/

theorem condFieldSqls_flat_scan (op : String) (hop : plainStr op = true) :
    ∀ (fs : List (String × GoVal × Bool)) (vars : List GoVal),
      fs.all (fun f => plainStr f.1) = true →
      (condFieldSqls op fs vars).2 =
        vars ++ (fs.filter (fun f => f.2.2 = false)).map (fun f => f.2.1) ∧
      ScanPre ((condFieldSqls op fs vars).1.flatMap
          (fun x => (" AND " : String).data ++ x.data))
        (List.range' (vars.length + 1)
          ((fs.filter (fun f => f.2.2 = false)).length) ) := by
  intro fs
  induction fs with
  | nil =>
      intro vars _
      exact ⟨by simp [condFieldSqls], by simpa using ScanPre.nil⟩
  | cons f rest ih =>
      intro vars hall
      rw [List.all_cons, Bool.and_eq_true] at hall
      rcases f with ⟨dbName, v, isBlank⟩
      cases isBlank with
      | true =>
          have hstep : condFieldSqls op ((dbName, v, true) :: rest) vars =
              condFieldSqls op rest vars := by
            simp [condFieldSqls]
          rcases ih vars hall.2 with ⟨ih1, ih2⟩
          refine ⟨?_, ?_⟩
          · rw [hstep, ih1]
            simp
          · rw [hstep]
            have hfilter :
                ((dbName, v, true) :: rest).filter
                    (fun f => f.2.2 = false) =
                  rest.filter (fun f => f.2.2 = false) := by
              simp [List.filter_cons]
            rw [hfilter]
            exact ih2
      | false =>
          have hstep : condFieldSqls op ((dbName, v, false) :: rest) vars =
              (("(" ++ quoteId dbName ++ op ++ markerStr (vars.length + 1) ++
                  ")") :: (condFieldSqls op rest (vars ++ [v])).1,
                (condFieldSqls op rest (vars ++ [v])).2) := by
            simp [condFieldSqls, addToVars]
          have hfilter :
              ((dbName, v, false) :: rest).filter (fun f => f.2.2 = false) =
                (dbName, v, false) ::
                  rest.filter (fun f => f.2.2 = false) := by
            simp [List.filter_cons]
          rcases ih (vars ++ [v]) hall.2 with ⟨ih1, ih2⟩
          refine ⟨?_, ?_⟩
          · rw [hstep, hfilter]
            simpa using ih1
          · rw [hstep, hfilter, List.flatMap_cons]
            have hent : ScanPre ((" AND " : String).data ++
                ("(" ++ quoteId dbName ++ op ++ markerStr (vars.length + 1) ++
                  ")").data) [vars.length + 1] := by
              rw [condEntry_assoc]
              exact ((ScanPre.plain (by decide)).append
                (ScanPre_condEntry hall.1 hop (vars.length + 1))).congr_tags
                (by simp)
            have hfull := hent.append ih2
            apply hfull.congr_tags
            have hlen : (vars ++ [v]).length + 1 = vars.length + 1 + 1 := by
              simp
            rw [hlen, List.length_cons, List.range'_succ]
            simp

theorem condFieldSqls_spec (op : String) (hop : plainStr op = true)
    (fs : List (String × GoVal × Bool)) (vars : List GoVal)
    (hall : fs.all (fun f => plainStr f.1) = true) :
    (condFieldSqls op fs vars).2 =
      vars ++ (fs.filter (fun f => f.2.2 = false)).map (fun f => f.2.1) ∧
    ScanPre (String.intercalate " AND " (condFieldSqls op fs vars).1).data
      (List.range' (vars.length + 1)
        ((fs.filter (fun f => f.2.2 = false)).length)) := by
  induction fs generalizing vars with
  | nil =>
      exact ⟨by simp [condFieldSqls], by simpa using ScanPre.nil⟩
  | cons f rest ih =>
      rw [List.all_cons, Bool.and_eq_true] at hall
      rcases f with ⟨dbName, v, isBlank⟩
      cases isBlank with
      | true =>
          have hstep : condFieldSqls op ((dbName, v, true) :: rest) vars =
              condFieldSqls op rest vars := by
            simp [condFieldSqls]
          have hfilter :
              ((dbName, v, true) :: rest).filter (fun f => f.2.2 = false) =
                rest.filter (fun f => f.2.2 = false) := by
            simp [List.filter_cons]
          rw [hstep, hfilter]
          exact ih vars hall.2
      | false =>
          have hstep : condFieldSqls op ((dbName, v, false) :: rest) vars =
              (("(" ++ quoteId dbName ++ op ++ markerStr (vars.length + 1) ++
                  ")") :: (condFieldSqls op rest (vars ++ [v])).1,
                (condFieldSqls op rest (vars ++ [v])).2) := by
            simp [condFieldSqls, addToVars]
          have hfilter :
              ((dbName, v, false) :: rest).filter (fun f => f.2.2 = false) =
                (dbName, v, false) ::
                  rest.filter (fun f => f.2.2 = false) := by
            simp [List.filter_cons]
          rcases condFieldSqls_flat_scan op hop rest (vars ++ [v]) hall.2 with
            ⟨ih1, ih2⟩
          refine ⟨?_, ?_⟩
          · rw [hstep, hfilter]
            simpa using ih1
          · rw [hstep, hfilter, intercalate_cons_data]
            have hent : ScanPre
                ("(" ++ quoteId dbName ++ op ++ markerStr (vars.length + 1) ++
                  ")").data [vars.length + 1] := by
              rw [condEntry_assoc]
              exact ScanPre_condEntry hall.1 hop (vars.length + 1)
            have hfull := hent.append ih2
            apply hfull.congr_tags
            have hlen : (vars ++ [v]).length + 1 = vars.length + 1 + 1 := by
              simp
            rw [hlen, List.length_cons, List.range'_succ]
            simp

/-! ## Lemmas: the where-condition builder renders markers in order -/

theorem count_q_zero_of_plain {s : String} (h : plainStr s = true) :
    s.data.count '?' = 0 := by
  apply List.count_eq_zero.mpr
  intro hmem
  rw [plainStr, List.all_eq_true] at h
  have := h '?' hmem
  rw [plainQChar] at this
  simp at this

theorem noRes_of_plain {l : List Char} (h : l.all plainQChar = true) :
    l.all noResChar = true := by
  rw [List.all_eq_true] at h ⊢
  intro c hc
  have := h c hc
  rw [plainQChar] at this
  rw [noResChar]
  simp only [Bool.and_eq_true, decide_eq_true_eq] at this ⊢
  tauto

theorem ScanPre_primaryCondition {scope : Scope}
    (hpk : plainStr scope.primaryKey = true) (n : Nat) :
    ScanPre (primaryCondition scope (markerStr n)).data [n] := by
  rw [primaryCondition, show "(" ++ quoteId scope.primaryKey ++ " = " ++
      markerStr n ++ ")" = "(" ++ (quoteId scope.primaryKey ++ (" = " ++
      (markerStr n ++ ")"))) from by simp [String.append_assoc]]
  exact ScanPre_condEntry hpk (by decide) n

theorem buildWhereCondition_spec (scope : Scope) (c : Clause)
    (hpk : plainStr scope.primaryKey = true)
    (hc : wfWhereClause c = true) (vars : List GoVal) :
    ∃ str vars2,
      buildWhereCondition scope c vars = some (str, vars2) ∧
      vars2 = vars ++ whereClauseVals c ∧
      ScanPre str.data
        (List.range' (vars.length + 1) (whereClauseVals c).length) := by
  rcases c with ⟨q, args⟩
  match q with
  | .qstr s =>
      by_cases hnum : isNumericString s = true
      · refine ⟨primaryCondition scope (markerStr (vars.length + 1)),
          vars ++ [.vint (goAtoi s)], ?_, ?_, ?_⟩
        · simp [buildWhereCondition, hnum, addToVars]
        · simp [whereClauseVals, hnum]
        · rw [show whereClauseVals ⟨.qstr s, args⟩ = [.vint (goAtoi s)] from
            by simp [whereClauseVals, hnum]]
          rw [show List.range' (vars.length + 1) ([GoVal.vint
            (goAtoi s)].length) = [vars.length + 1] from by
            simp [List.range']]
          exact ScanPre_primaryCondition hpk (vars.length + 1)
      · rw [wfWhereClause] at hc
        simp only [Bool.or_eq_true] at hc
        rcases hc with hc | hc
        · exact absurd hc hnum
        rw [Bool.and_eq_true] at hc
        rcases hc with ⟨hnr, hargs⟩
        match hargsEq : args with
        | none => simp at hargs
        | some argsList =>
            have hlen : argsList.length = countQ s := by
              simpa using hargs
            have hbuild : buildWhereCondition scope ⟨.qstr s, some argsList⟩
                vars = some (processWhereArgs argsList
                  (if s ≠ "" then "(" ++ s ++ ")" else "") vars) := by
              simp [buildWhereCondition, hnum]
            have hvals : whereClauseVals ⟨.qstr s, some argsList⟩ =
                argsVals argsList := by
              simp [whereClauseVals, hnum]
            by_cases hse : s = ""
            · subst hse
              have hR : (("" : String)).data.all noResChar = true := by decide
              have hcount : (("" : String)).data.count '?' =
                  argsList.length := by
                rw [hlen]
                rfl
              have hmain := processWhereArgs_spec argsList "" [] [] [] vars
                rfl ScanPre.nil hR hcount
              refine ⟨(processWhereArgs argsList "" vars).1,
                (processWhereArgs argsList "" vars).2, ?_, ?_, ?_⟩
              · rw [hbuild]
                simp
              · rw [hvals]
                exact hmain.1
              · rw [hvals]
                exact hmain.2.congr_tags (by simp)
            · have hstr : (if s ≠ "" then "(" ++ s ++ ")" else "") =
                  "(" ++ s ++ ")" := by
                simp [hse]
              have hR : ("(" ++ s ++ ")").data.all noResChar = true := by
                rw [show "(" ++ s ++ ")" = "(" ++ (s ++ ")") from by
                  simp [String.append_assoc]]
                rw [string_data_append, string_data_append, List.all_append,
                  List.all_append]
                rw [show (("(" : String)).data.all noResChar = true from by
                  decide]
                rw [show ((")" : String)).data.all noResChar = true from by
                  decide]
                rw [show s.data.all noResChar = true from hnr]
                rfl
              have hcount : ("(" ++ s ++ ")").data.count '?' =
                  argsList.length := by
                rw [show "(" ++ s ++ ")" = "(" ++ (s ++ ")") from by
                  simp [String.append_assoc]]
                rw [string_data_append, string_data_append,
                  List.count_append, List.count_append]
                rw [show List.count '?' (("(" : String)).data = 0 from by
                  decide]
                rw [show List.count '?' ((")" : String)).data = 0 from by
                  decide]
                rw [hlen, countQ]
                omega
              have hmain := processWhereArgs_spec argsList ("(" ++ s ++ ")")
                [] (("(" ++ s ++ ")").data) [] vars rfl ScanPre.nil hR hcount
              refine ⟨(processWhereArgs argsList ("(" ++ s ++ ")") vars).1,
                (processWhereArgs argsList ("(" ++ s ++ ")") vars).2,
                ?_, ?_, ?_⟩
              · rw [hbuild, hstr]
              · rw [hvals]
                exact hmain.1
              · rw [hvals]
                exact hmain.2.congr_tags (by simp)
  | .qint n =>
      refine ⟨primaryCondition scope (markerStr (vars.length + 1)),
        vars ++ [.vint n], ?_, ?_, ?_⟩
      · simp [buildWhereCondition, addToVars]
      · simp [whereClauseVals]
      · rw [show whereClauseVals ⟨.qint n, args⟩ = [.vint n] from by
          simp [whereClauseVals]]
        rw [show List.range' (vars.length + 1) ([GoVal.vint n].length) =
          [vars.length + 1] from by simp [List.range']]
        exact ScanPre_primaryCondition hpk (vars.length + 1)
  | .qvalList vs =>
      have hbuild : buildWhereCondition scope ⟨.qvalList vs, args⟩ vars =
          some (processWhereArgs [QArg.arr vs]
            ("(" ++ quoteId scope.primaryKey ++ " in (?))") vars) := by
        simp [buildWhereCondition]
      have hplainq : (quoteId scope.primaryKey).data.all plainQChar = true :=
        plain_quoteId hpk
      have hR : ("(" ++ quoteId scope.primaryKey ++ " in (?))").data.all
          noResChar = true := by
        rw [show "(" ++ quoteId scope.primaryKey ++ " in (?))" =
          "(" ++ (quoteId scope.primaryKey ++ " in (?))") from by
          simp [String.append_assoc]]
        rw [string_data_append, string_data_append, List.all_append,
          List.all_append]
        rw [show (("(" : String)).data.all noResChar = true from by decide]
        rw [show ((" in (?))" : String)).data.all noResChar = true from by
          decide]
        rw [noRes_of_plain hplainq]
        rfl
      have hcount : ("(" ++ quoteId scope.primaryKey ++ " in (?))").data.count
          '?' = [QArg.arr vs].length := by
        rw [show "(" ++ quoteId scope.primaryKey ++ " in (?))" =
          "(" ++ (quoteId scope.primaryKey ++ " in (?))") from by
          simp [String.append_assoc]]
        rw [string_data_append, string_data_append, List.count_append,
          List.count_append]
        rw [count_q_zero_of_plain (plain_quoteId hpk)]
        rfl
      have hmain := processWhereArgs_spec [QArg.arr vs]
        ("(" ++ quoteId scope.primaryKey ++ " in (?))") []
        (("(" ++ quoteId scope.primaryKey ++ " in (?))").data) [] vars rfl
        ScanPre.nil hR hcount
      refine ⟨(processWhereArgs [QArg.arr vs]
          ("(" ++ quoteId scope.primaryKey ++ " in (?))") vars).1,
        (processWhereArgs [QArg.arr vs]
          ("(" ++ quoteId scope.primaryKey ++ " in (?))") vars).2,
        ?_, ?_, ?_⟩
      · rw [hbuild]
      · rw [show whereClauseVals ⟨.qvalList vs, args⟩ = vs from by
          simp [whereClauseVals]]
        have := hmain.1
        simpa [argsVals, argVals] using this
      · rw [show whereClauseVals ⟨.qvalList vs, args⟩ = vs from by
          simp [whereClauseVals]]
        apply hmain.2.congr_tags
        simp [argsVals, argVals]
  | .qmap kvs =>
      have hall : kvs.all (fun kv => plainStr kv.1) = true := by
        simpa [wfWhereClause] using hc
      rcases hcp : condPairSqls " = " kvs vars with ⟨sqls, vars2⟩
      have hspec := condPairSqls_spec " = " (by decide) kvs vars hall
      rw [hcp] at hspec
      refine ⟨String.intercalate " AND " sqls, vars2, ?_, ?_, ?_⟩
      · simp [buildWhereCondition, hcp]
      · rw [show whereClauseVals ⟨.qmap kvs, args⟩ =
          kvs.map (fun kv => kv.2) from by simp [whereClauseVals]]
        exact hspec.1
      · rw [show whereClauseVals ⟨.qmap kvs, args⟩ =
          kvs.map (fun kv => kv.2) from by simp [whereClauseVals]]
        exact hspec.2.congr_tags (by simp)
  | .qstruct fs =>
      have hall : fs.all (fun f => plainStr f.1) = true := by
        simpa [wfWhereClause] using hc
      rcases hcp : condFieldSqls " = " fs vars with ⟨sqls, vars2⟩
      have hspec := condFieldSqls_spec " = " (by decide) fs vars hall
      rw [hcp] at hspec
      refine ⟨String.intercalate " AND " sqls, vars2, ?_, ?_, ?_⟩
      · simp [buildWhereCondition, hcp]
      · rw [show whereClauseVals ⟨.qstruct fs, args⟩ =
          (fs.filter (fun f => f.2.2 = false)).map (fun f => f.2.1) from by
          simp [whereClauseVals]]
        exact hspec.1
      · rw [show whereClauseVals ⟨.qstruct fs, args⟩ =
          (fs.filter (fun f => f.2.2 = false)).map (fun f => f.2.1) from by
          simp [whereClauseVals]]
        exact hspec.2.congr_tags (by simp)

/-! ## Lemmas: the not-condition builder renders markers in order -/

theorem count_q_str_append (a b : String) :
    (a ++ b).data.count '?' = a.data.count '?' + b.data.count '?' := by
  rw [string_data_append, List.count_append]

theorem noRes_str_append (a b : String) :
    (a ++ b).data.all noResChar =
      ((a.data.all noResChar) && (b.data.all noResChar)) := by
  rw [string_data_append, List.all_append]

theorem replace_single_scan {s repl : String} {t : List Nat}
    (hcount : s.data.count '?' = 1) (hnr : s.data.all noResChar = true)
    (hrepl : ScanPre repl.data t) :
    ScanPre (replaceFirstQ s repl).data t := by
  have hmem : '?' ∈ s.data := mem_q_of_count_pos (by omega)
  rcases exists_first_q _ hmem with ⟨a, b, hab, hqa⟩
  have hcnt := count_append_split hab hqa
  have hqb : '?' ∉ b := by
    rw [← List.count_eq_zero]
    omega
  rcases all_noRes_split hab hnr with ⟨han, hbn⟩
  show ScanPre (rfq s.data repl.data) t
  rw [hab, rfq_hit hqa]
  have h4 := (ScanPre.plain (plain_of_noRes_noQ han hqa)).append
    (hrepl.append (ScanPre.plain (plain_of_noRes_noQ hbn hqb)))
  rw [← List.append_assoc] at h4
  exact h4.congr_tags (by simp)

theorem buildNotCondition_spec (scope : Scope) (c : Clause)
    (hpk : plainStr scope.primaryKey = true)
    (hc : wfNotClause c = true) (vars : List GoVal) :
    ∃ str vars2,
      buildNotCondition scope c vars = some (str, vars2) ∧
      vars2 = vars ++ notClauseVals c ∧
      ScanPre str.data
        (List.range' (vars.length + 1) (notClauseVals c).length) := by
  rcases c with ⟨q, args⟩
  match q with
  | .qstr s =>
      by_cases hnum : isNumericString s = true
      · refine ⟨"(" ++ quoteId scope.primaryKey ++ " <> " ++
          toString (goAtoi s) ++ ")", vars, ?_, ?_, ?_⟩
        · simp [buildNotCondition, hnum]
        · simp [notClauseVals, hnum]
        · rw [show notClauseVals ⟨.qstr s, args⟩ = [] from by
            simp [notClauseVals, hnum]]
          apply ScanPre.plain
          rw [show "(" ++ quoteId scope.primaryKey ++ " <> " ++
            toString (goAtoi s) ++ ")" = "(" ++ (quoteId scope.primaryKey ++
            (" <> " ++ (toString (goAtoi s) ++ ")"))) from by
            simp [String.append_assoc]]
          rw [string_data_append, string_data_append, string_data_append,
            string_data_append, List.all_append, List.all_append,
            List.all_append, List.all_append]
          rw [show (quoteId scope.primaryKey).data.all plainQChar = true
            from plain_quoteId hpk]
          rw [show (toString (goAtoi s)).data.all plainQChar = true from
            plain_intToString _]
          decide
      · simp only [wfNotClause] at hc
        rw [if_neg hnum] at hc
        by_cases hcmp : containsCompOp s = true
        · rw [if_pos hcmp, Bool.and_eq_true] at hc
          rcases hc with ⟨hnr, hargs⟩
          have hnrl : s.data.all noResChar = true := hnr
          match hargsEq : args with
          | none => simp at hargs
          | some [] =>
              have hq0 : countQ s = 0 := by simpa using hargs
              have hqmem : '?' ∉ s.data := by
                rw [← List.count_eq_zero]
                exact hq0
              refine ⟨" NOT (" ++ s ++ ") ", vars, ?_, ?_, ?_⟩
              · simp [buildNotCondition, hnum, hcmp, processNotArgs_nil]
              · simp [notClauseVals, hnum, argsVals]
              · rw [show notClauseVals ⟨.qstr s, some []⟩ = [] from by
                  simp [notClauseVals, hnum, argsVals]]
                apply ScanPre.plain
                rw [string_data_append, string_data_append, List.all_append,
                  List.all_append]
                rw [plain_of_noRes_noQ hnrl hqmem]
                decide
          | some [a] =>
              have hq1 : countQ s = 1 := by simpa using hargs
              match a with
              | .scalar v =>
                  have hstep : buildNotCondition scope ⟨.qstr s,
                      some [QArg.scalar v]⟩ vars = some
                      (replaceFirstQ ("NOT (" ++ s ++ ")")
                        (markerStr (vars.length + 1)), vars ++ [v]) := by
                    simp [buildNotCondition, hnum, hcmp,
                      processNotArgs_scalar, processNotArgs_nil]
                  refine ⟨_, _, hstep, ?_, ?_⟩
                  · simp [notClauseVals, hnum, argsVals, argVals]
                  · rw [show notClauseVals ⟨.qstr s, some [QArg.scalar v]⟩ =
                      [v] from by simp [notClauseVals, hnum, argsVals,
                        argVals]]
                    rw [show List.range' (vars.length + 1)
                      ([v].length) = [vars.length + 1] from by
                      simp [List.range']]
                    apply replace_single_scan
                    · rw [count_q_str_append, count_q_str_append]
                      rw [show List.count '?' (("NOT (" : String)).data = 0
                        from by decide]
                      rw [show List.count '?' ((")" : String)).data = 0
                        from by decide]
                      have h6 : s.data.count '?' = 1 := hq1
                      omega
                    · rw [noRes_str_append, noRes_str_append]
                      rw [hnrl]
                      rw [show (("NOT (" : String)).data.all noResChar = true
                        from by decide]
                      rw [show (((")") : String)).data.all noResChar = true
                        from by decide]
                      rfl
                    · have h5 := ScanPre.marker (vars.length + 1)
                      apply h5.congr_tags
                      rfl
              | .arr vs =>
                  have hstep : buildNotCondition scope ⟨.qstr s,
                      some [QArg.arr vs]⟩ vars = some
                      (replaceFirstQ (" NOT (" ++ s ++ ") ")
                        (String.intercalate ","
                          (expandMarks vs vars).1),
                        (expandMarks vs vars).2) := by
                    simp [buildNotCondition, hnum, hcmp,
                      processNotArgs_arr, processNotArgs_nil]
                  rcases expandMarks_spec vs vars with ⟨he1, he2⟩
                  refine ⟨_, _, hstep, ?_, ?_⟩
                  · rw [he1]
                    simp [notClauseVals, hnum, argsVals, argVals]
                  · rw [show notClauseVals ⟨.qstr s, some [QArg.arr vs]⟩ =
                      vs from by simp [notClauseVals, hnum, argsVals,
                        argVals]]
                    apply replace_single_scan
                    · rw [count_q_str_append, count_q_str_append]
                      rw [show List.count '?' ((" NOT (" : String)).data = 0
                        from by decide]
                      rw [show List.count '?' (((") ") : String)).data = 0
                        from by decide]
                      have : s.data.count '?' = 1 := hq1
                      omega
                    · rw [noRes_str_append, noRes_str_append]
                      rw [hnrl]
                      rw [show ((" NOT (" : String)).data.all noResChar = true
                        from by decide]
                      rw [show (((") ") : String)).data.all noResChar = true
                        from by decide]
                      rfl
                    · exact he2
          | some (a :: b :: rest) => simp at hargs
        · rw [if_neg hcmp, Bool.and_eq_true] at hc
          rcases hc with ⟨hps, hargs⟩
          have hqv : (quoteId s).data.all plainQChar = true :=
            plain_quoteId hps
          match hargsEq : args with
          | none => simp at hargs
          | some [] => simp at hargs
          | some (a :: b :: rest) => simp at hargs
          | some [a] =>
              match a with
              | .scalar v =>
                  have hstep : buildNotCondition scope ⟨.qstr s,
                      some [QArg.scalar v]⟩ vars = some
                      (replaceFirstQ ("(" ++ quoteId s ++ " <> ?)")
                        (markerStr (vars.length + 1)), vars ++ [v]) := by
                    simp [buildNotCondition, hnum, hcmp,
                      processNotArgs_scalar, processNotArgs_nil]
                  refine ⟨_, _, hstep, ?_, ?_⟩
                  · simp [notClauseVals, hnum, argsVals, argVals]
                  · rw [show notClauseVals ⟨.qstr s, some [QArg.scalar v]⟩ =
                      [v] from by simp [notClauseVals, hnum, argsVals,
                        argVals]]
                    rw [show List.range' (vars.length + 1)
                      ([v].length) = [vars.length + 1] from by
                      simp [List.range']]
                    apply replace_single_scan
                    · rw [count_q_str_append, count_q_str_append]
                      rw [show List.count '?' (("(" : String)).data = 0
                        from by decide]
                      rw [show List.count '?' ((" <> ?)" : String)).data = 1
                        from by decide]
                      rw [count_q_zero_of_plain (plain_quoteId hps)]
                    · rw [noRes_str_append, noRes_str_append]
                      rw [noRes_of_plain hqv]
                      rw [show (("(" : String)).data.all noResChar = true
                        from by decide]
                      rw [show ((" <> ?)" : String)).data.all noResChar = true
                        from by decide]
                      rfl
                    · have h5 := ScanPre.marker (vars.length + 1)
                      apply h5.congr_tags
                      rfl
              | .arr vs =>
                  have hstep : buildNotCondition scope ⟨.qstr s,
                      some [QArg.arr vs]⟩ vars = some
                      (replaceFirstQ ("(" ++ quoteId s ++ " NOT IN (?))")
                        (String.intercalate ","
                          (expandMarks vs vars).1),
                        (expandMarks vs vars).2) := by
                    simp [buildNotCondition, hnum, hcmp,
                      processNotArgs_arr, processNotArgs_nil]
                  rcases expandMarks_spec vs vars with ⟨he1, he2⟩
                  refine ⟨_, _, hstep, ?_, ?_⟩
                  · rw [he1]
                    simp [notClauseVals, hnum, argsVals, argVals]
                  · rw [show notClauseVals ⟨.qstr s, some [QArg.arr vs]⟩ =
                      vs from by simp [notClauseVals, hnum, argsVals,
                        argVals]]
                    apply replace_single_scan
                    · rw [count_q_str_append, count_q_str_append]
                      rw [show List.count '?' (("(" : String)).data = 0
                        from by decide]
                      rw [show List.count '?'
                        ((" NOT IN (?))" : String)).data = 1 from by decide]
                      rw [count_q_zero_of_plain (plain_quoteId hps)]
                    · rw [noRes_str_append, noRes_str_append]
                      rw [noRes_of_plain hqv]
                      rw [show (("(" : String)).data.all noResChar = true
                        from by decide]
                      rw [show ((" NOT IN (?))" : String)).data.all
                        noResChar = true from by decide]
                      rfl
                    · exact he2
  | .qint n =>
      refine ⟨"(" ++ quoteId scope.primaryKey ++ " <> " ++ toString n ++ ")",
        vars, ?_, ?_, ?_⟩
      · simp [buildNotCondition]
      · simp [notClauseVals]
      · rw [show notClauseVals ⟨.qint n, args⟩ = [] from by
          simp [notClauseVals]]
        apply ScanPre.plain
        rw [show "(" ++ quoteId scope.primaryKey ++ " <> " ++
          toString n ++ ")" = "(" ++ (quoteId scope.primaryKey ++
          (" <> " ++ (toString n ++ ")"))) from by
          simp [String.append_assoc]]
        rw [string_data_append, string_data_append, string_data_append,
          string_data_append, List.all_append, List.all_append,
          List.all_append, List.all_append]
        rw [show (quoteId scope.primaryKey).data.all plainQChar = true
          from plain_quoteId hpk]
        rw [show (toString n).data.all plainQChar = true from
          plain_intToString _]
        decide
  | .qvalList vs =>
      refine ⟨"", vars, ?_, ?_, ?_⟩
      · simp [buildNotCondition]
      · simp [notClauseVals]
      · rw [show notClauseVals ⟨.qvalList vs, args⟩ = [] from by
          simp [notClauseVals]]
        exact ScanPre.nil
  | .qmap kvs =>
      have hall : kvs.all (fun kv => plainStr kv.1) = true := by
        simpa [wfNotClause] using hc
      rcases hcp : condPairSqls " <> " kvs vars with ⟨sqls, vars2⟩
      have hspec := condPairSqls_spec " <> " (by decide) kvs vars hall
      rw [hcp] at hspec
      refine ⟨String.intercalate " AND " sqls, vars2, ?_, ?_, ?_⟩
      · simp [buildNotCondition, hcp]
      · rw [show notClauseVals ⟨.qmap kvs, args⟩ =
          kvs.map (fun kv => kv.2) from by simp [notClauseVals]]
        exact hspec.1
      · rw [show notClauseVals ⟨.qmap kvs, args⟩ =
          kvs.map (fun kv => kv.2) from by simp [notClauseVals]]
        exact hspec.2.congr_tags (by simp)
  | .qstruct fs =>
      have hall : fs.all (fun f => plainStr f.1) = true := by
        simpa [wfNotClause] using hc
      rcases hcp : condFieldSqls " <> " fs vars with ⟨sqls, vars2⟩
      have hspec := condFieldSqls_spec " <> " (by decide) fs vars hall
      rw [hcp] at hspec
      refine ⟨String.intercalate " AND " sqls, vars2, ?_, ?_, ?_⟩
      · simp [buildNotCondition, hcp]
      · rw [show notClauseVals ⟨.qstruct fs, args⟩ =
          (fs.filter (fun f => f.2.2 = false)).map (fun f => f.2.1) from by
          simp [notClauseVals]]
        exact hspec.1
      · rw [show notClauseVals ⟨.qstruct fs, args⟩ =
          (fs.filter (fun f => f.2.2 = false)).map (fun f => f.2.1) from by
          simp [notClauseVals]]
        exact hspec.2.congr_tags (by simp)

/-! ## Lemmas: compiling a clause list and joining the renderings -/

theorem ScanPre_flatMap_of_intercalate {sep : String}
    (hsep : plainStr sep = true) {l : List String} {T : List Nat}
    (h : ScanPre (String.intercalate sep l).data T) :
    ScanPre (l.flatMap (fun x => sep.data ++ x.data)) T := by
  cases l with
  | nil =>
      have hT : T = [] := h.empty_tags
      subst hT
      exact ScanPre.nil
  | cons x xs =>
      have heq : (x :: xs).flatMap (fun y => sep.data ++ y.data) =
          sep.data ++ (String.intercalate sep (x :: xs)).data := by
        rw [List.flatMap_cons, intercalate_cons_data, List.append_assoc]
      rw [heq]
      exact ((ScanPre.plain hsep).append h).congr_tags (by simp)

theorem intercalate_append_data (sep : String) (A N : List String)
    (hA : A ≠ []) :
    (String.intercalate sep (A ++ N)).data =
      (String.intercalate sep A).data ++
        N.flatMap (fun x => sep.data ++ x.data) := by
  cases A with
  | nil => exact absurd rfl hA
  | cons a A2 =>
      rw [List.cons_append, intercalate_cons_data, intercalate_cons_data,
        List.flatMap_append, List.append_assoc]

theorem intercalate_single (sep s : String) :
    String.intercalate sep [s] = s := by
  rfl

theorem intercalate_len_pos {sep s : String} {t : List String}
    (hs : s ≠ "") : 0 < (String.intercalate sep (s :: t)).length := by
  show 0 < (String.intercalate sep (s :: t)).data.length
  rw [intercalate_cons_data, List.length_append]
  have hd : s.data ≠ [] := by
    intro h
    apply hs
    cases s with
    | mk l => cases h; rfl
  cases hsd : s.data with
  | nil => exact absurd hsd hd
  | cons c cs => simp [hsd]

theorem string_len_zero {s : String} (h : ¬ 0 < s.length) : s.data = [] := by
  cases s with
  | mk l =>
      cases l with
      | nil => rfl
      | cons c cs => exact absurd (by simp [String.length]) h

theorem buildConditionList_spec
    (build : Clause → List GoVal → Option (String × List GoVal))
    (vals : Clause → List GoVal) :
    ∀ (cs : List Clause) (vars : List GoVal),
      (∀ c ∈ cs, ∀ vars2 : List GoVal, ∃ str vars3,
        build c vars2 = some (str, vars3) ∧ vars3 = vars2 ++ vals c ∧
        ScanPre str.data
          (List.range' (vars2.length + 1) (vals c).length)) →
      ∃ l vars2,
        buildConditionList build cs vars = some (l, vars2) ∧
        vars2 = vars ++ cs.flatMap vals ∧
        (∀ s ∈ l, s ≠ "") ∧
        (∀ sep : String, plainStr sep = true →
          ScanPre (String.intercalate sep l).data
            (List.range' (vars.length + 1) (cs.flatMap vals).length)) := by
  intro cs
  induction cs with
  | nil =>
      intro vars _
      refine ⟨[], vars, rfl, by simp, by simp, ?_⟩
      intro sep _
      exact (ScanPre.nil).congr_tags (by simp)
  | cons c rest ih =>
      intro vars hall
      rcases hall c (List.mem_cons_self c rest) vars with
        ⟨str, vars3, hbuild, hv3, hscan⟩
      rcases ih vars3 (fun c2 hc2 => hall c2 (List.mem_cons_of_mem c hc2))
        with ⟨l2, vars4, hbcl, hv4, hne, hscans⟩
      have hstep : buildConditionList build (c :: rest) vars =
          some ((if str = "" then l2 else str :: l2), vars4) := by
        simp [buildConditionList, hbuild, hbcl]
      by_cases hse : str = ""
      · subst hse
        have hTempty : List.range' (vars.length + 1) (vals c).length = [] :=
          hscan.empty_tags
        have hlen0 : (vals c).length = 0 := by
          by_contra hlc
          rw [List.range'_eq_nil] at hTempty
          exact hlc hTempty
        have hvc : vals c = [] := List.length_eq_zero.mp hlen0
        refine ⟨l2, vars4, ?_, ?_, hne, ?_⟩
        · rw [hstep, if_pos rfl]
        · rw [hv4, hv3, hvc]
          simp [hvc]
        · intro sep hsep
          have h5 := hscans sep hsep
          rw [hv3, hvc] at h5
          simpa [hvc] using h5
      · refine ⟨str :: l2, vars4, ?_, ?_, ?_, ?_⟩
        · rw [hstep, if_neg hse]
        · rw [hv4, hv3]
          simp
        · intro s hs
          rcases List.mem_cons.mp hs with h | h
          · exact h ▸ hse
          · exact hne s h
        · intro sep hsep
          have htail := ScanPre_flatMap_of_intercalate hsep (hscans sep hsep)
          rw [intercalate_cons_data]
          have hfull := hscan.append htail
          apply hfull.congr_tags
          rw [hv3, List.length_append]
          rw [show vars.length + (vals c).length + 1 =
            (vars.length + 1) + (vals c).length from by omega]
          rw [range'_glue]
          simp

/-! ## Lemmas: assembling the WHERE clause keeps markers in order -/

theorem ScanPre_join_append {A N : List String} {TA TN : List Nat}
    (hA : ∀ sep : String, plainStr sep = true →
      ScanPre (String.intercalate sep A).data TA)
    (hN : ∀ sep : String, plainStr sep = true →
      ScanPre (String.intercalate sep N).data TN) :
    ∀ sep : String, plainStr sep = true →
      ScanPre (String.intercalate sep (A ++ N)).data (TA ++ TN) := by
  intro sep hsep
  cases hAe : A with
  | nil =>
      have hTA : TA = [] := by
        have := hA sep hsep
        rw [hAe] at hA
        have h2 := hA sep hsep
        exact h2.empty_tags
      subst hTA
      simpa using hN sep hsep
  | cons a A2 =>
      rw [← hAe, intercalate_append_data sep A N (by rw [hAe]; simp)]
      exact (hA sep hsep).append
        (ScanPre_flatMap_of_intercalate hsep (hN sep hsep))

theorem combinedConditionSql_scan {AN O : List String} {TAN TO : List Nat}
    (hAN : ∀ sep : String, plainStr sep = true →
      ScanPre (String.intercalate sep AN).data TAN)
    (hO : ∀ sep : String, plainStr sep = true →
      ScanPre (String.intercalate sep O).data TO) :
    ScanPre (combinedConditionSql AN O).data (TAN ++ TO) := by
  have hand := hAN " AND " (by decide)
  have hor := hO " OR " (by decide)
  rw [combinedConditionSql]
  by_cases hc : 0 < (String.intercalate " AND " AN).length
  · rw [if_pos hc]
    by_cases ho : 0 < (String.intercalate " OR " O).length
    · rw [if_pos ho]
      have h4 := hand.append ((ScanPre.plain
        (l := (" OR " : String).data) (by decide)).append hor)
      rw [string_data_append, string_data_append]
      simp only [List.append_assoc]
      apply h4.congr_tags
      simp
    · rw [if_neg ho]
      have hTO : TO = [] := by
        have hd := string_len_zero ho
        rw [hd] at hor
        exact hor.empty_tags
      subst hTO
      exact hand.congr_tags (by simp)
  · rw [if_neg hc]
    have hTAN : TAN = [] := by
      have hd := string_len_zero hc
      rw [hd] at hand
      exact hand.empty_tags
    subst hTAN
    exact hor.congr_tags (by simp)

theorem assembleWhereSql_scan {P : List String} {TP : List Nat}
    {combined : String} {TC : List Nat}
    (hP : ∀ sep : String, plainStr sep = true →
      ScanPre (String.intercalate sep P).data TP)
    (hC : ScanPre combined.data TC) :
    ScanPre (assembleWhereSql P combined).data (TP ++ TC) := by
  have hjoin := hP " AND " (by decide)
  rw [assembleWhereSql]
  by_cases hp : 0 < P.length
  · rw [if_pos hp]
    by_cases hcb : 0 < combined.length
    · rw [if_pos hcb]
      have h4 := (ScanPre.plain (l := ("WHERE " : String).data)
        (by decide)).append (hjoin.append ((ScanPre.plain
          (l := (" AND (" : String).data) (by decide)).append
          (hC.append (ScanPre.plain (l := ((")") : String).data)
            (by decide)))))
      rw [string_data_append, string_data_append, string_data_append,
        string_data_append]
      simp only [List.append_assoc]
      apply h4.congr_tags
      simp
    · rw [if_neg hcb]
      have hTC : TC = [] := by
        have hd := string_len_zero hcb
        rw [hd] at hC
        exact hC.empty_tags
      subst hTC
      have h4 := (ScanPre.plain (l := ("WHERE " : String).data)
        (by decide)).append (hjoin.append ScanPre.nil)
      rw [string_data_append, string_data_append]
      simp only [List.append_assoc]
      apply h4.congr_tags
      simp
  · rw [if_neg hp]
    have hP0 : P = [] := by
      cases P with
      | nil => rfl
      | cons a t => simp at hp
    have hTP : TP = [] := by
      rw [hP0] at hjoin
      exact hjoin.empty_tags
    subst hTP
    by_cases hcb : 0 < combined.length
    · rw [if_pos hcb]
      have h4 := (ScanPre.plain (l := ("WHERE " : String).data)
        (by decide)).append hC
      rw [string_data_append]
      apply h4.congr_tags
      simp
    · rw [if_neg hcb]
      have hTC : TC = [] := by
        have hd := string_len_zero hcb
        rw [hd] at hC
        exact hC.empty_tags
      subst hTC
      exact ScanPre.nil

/-! ## The full `whereSql` rendering keeps markers in order -/

theorem whereSql_spec (scope : Scope) (vars : List GoVal)
    (hwf : wfRenderScope scope = true) :
    ∃ str vars2 V,
      whereSql scope vars = some (str, vars2) ∧ vars2 = vars ++ V ∧
      ScanPre str.data (List.range' (vars.length + 1) V.length) := by
  rw [wfRenderScope] at hwf
  simp only [Bool.and_eq_true] at hwf
  obtain ⟨⟨⟨⟨⟨hpk, htb⟩, hwh⟩, hor⟩, hnot⟩, hsepb⟩ := hwf
  have hsd_plain : (softDeleteSql scope).data.all plainQChar = true := by
    rw [softDeleteSql]
    simp only [string_data_append, List.all_append]
    simp only [show (quoteId scope.tableName).data.all plainQChar = true from
      plain_quoteId htb]
    decide
  have hws : ∃ (P : List String) (V0 : List GoVal),
      (∀ sep : String, plainStr sep = true →
        ScanPre (String.intercalate sep P).data
          (List.range' (vars.length + 1) V0.length)) ∧
      whereSql scope vars =
        (match buildConditionList (buildWhereCondition scope)
            scope.search.whereConditions (vars ++ V0) with
        | none => none
        | some (andConditions, vars) =>
          match buildConditionList (buildWhereCondition scope)
              scope.search.orConditions vars with
          | none => none
          | some (orConditions, vars) =>
            match buildConditionList (buildNotCondition scope)
                scope.search.notConditions vars with
            | none => none
            | some (notConditions, vars) =>
              some (assembleWhereSql P
                (combinedConditionSql (andConditions ++ notConditions)
                  orConditions), vars)) := by
    by_cases hsd : scope.search.unscope = false ∧
        scope.hasDeletedAtField = true
    · by_cases hpz : scope.primaryKeyIsZero = false
      · refine ⟨[softDeleteSql scope,
          primaryCondition scope (markerStr (vars.length + 1))],
          [scope.primaryKeyVal], ?_, ?_⟩
        · intro sep hsep
          rw [intercalate_cons_data]
          simp only [List.flatMap_cons, List.flatMap_nil, List.append_nil]
          have h4 := (ScanPre.plain hsd_plain).append
            ((ScanPre.plain hsep).append
              (ScanPre_primaryCondition hpk (vars.length + 1)))
          apply h4.congr_tags
          simp [List.range']
        · simp only [whereSql]
          rw [if_pos hsd, if_pos hpz]
          simp [addToVars]
      · refine ⟨[softDeleteSql scope], [], ?_, ?_⟩
        · intro sep hsep
          rw [intercalate_single]
          exact (ScanPre.plain hsd_plain).congr_tags (by simp)
        · simp only [whereSql]
          rw [if_pos hsd, if_neg hpz]
          simp
    · by_cases hpz : scope.primaryKeyIsZero = false
      · refine ⟨[primaryCondition scope (markerStr (vars.length + 1))],
          [scope.primaryKeyVal], ?_, ?_⟩
        · intro sep hsep
          rw [intercalate_single]
          exact (ScanPre_primaryCondition hpk (vars.length + 1)).congr_tags
            (by simp [List.range'])
        · simp only [whereSql]
          rw [if_neg hsd, if_pos hpz]
          simp [addToVars]
      · refine ⟨[], [], ?_, ?_⟩
        · intro sep hsep
          exact ScanPre.nil.congr_tags (by simp)
        · simp only [whereSql]
          rw [if_neg hsd, if_neg hpz]
          simp
  obtain ⟨P, V0, hPscan, hws⟩ := hws
  have hWor := buildConditionList_spec (buildWhereCondition scope)
    whereClauseVals scope.search.whereConditions (vars ++ V0)
    (fun c hc v2 => buildWhereCondition_spec scope c hpk
      (List.all_eq_true.mp hwh c hc) v2)
  obtain ⟨A, varsW, hbw, hvW, hneA, hscanA⟩ := hWor
  have hOor := buildConditionList_spec (buildWhereCondition scope)
    whereClauseVals scope.search.orConditions varsW
    (fun c hc v2 => buildWhereCondition_spec scope c hpk
      (List.all_eq_true.mp hor c hc) v2)
  obtain ⟨O, varsO, hbo, hvO, hneO, hscanO⟩ := hOor
  have hNor := buildConditionList_spec (buildNotCondition scope)
    notClauseVals scope.search.notConditions varsO
    (fun c hc v2 => buildNotCondition_spec scope c hpk
      (List.all_eq_true.mp hnot c hc) v2)
  obtain ⟨N, varsN, hbn, hvN, hneN, hscanN⟩ := hNor
  simp only [hbw, hbo, hbn] at hws
  refine ⟨assembleWhereSql P (combinedConditionSql (A ++ N) O), varsN,
    V0 ++ (scope.search.whereConditions.flatMap whereClauseVals ++
      (scope.search.orConditions.flatMap whereClauseVals ++
        scope.search.notConditions.flatMap notClauseVals)), hws, ?_, ?_⟩
  · rw [hvN, hvO, hvW]
    simp
  · have hglue : ∀ (p a q b r c t : Nat), q = p + a → r = p + a + b →
        t = a + b + c →
        List.range' p a ++ (List.range' q b ++ List.range' r c) =
          List.range' p t := by
      intro p a q b r c t hq hr ht
      subst hq
      subst hr
      rw [range'_glue, range'_glue]
      congr 1
      omega
    have hAN := ScanPre_join_append hscanA hscanN
    have hcomb := combinedConditionSql_scan hAN hscanO
    have hfin := assembleWhereSql_scan hPscan hcomb
    apply hfin.congr_tags
    rw [Bool.or_eq_true] at hsepb
    rcases hsepb with hOore | hNnile
    · have hOe : scope.search.orConditions = [] := by
        simpa using hOore
      rw [hOe]
      simp only [List.flatMap_nil, List.length_nil, List.range'_zero,
        List.append_nil, List.nil_append]
      apply hglue
      · simp only [List.length_append]
        omega
      · rw [hvO, hvW, hOe]
        simp only [List.flatMap_nil, List.append_nil, List.length_append,
          List.length_nil]
        omega
      · simp only [List.length_append]
        omega
    · have hNe : scope.search.notConditions = [] := by
        simpa using hNnile
      rw [hNe]
      simp only [List.flatMap_nil, List.length_nil, List.range'_zero,
        List.append_nil, List.nil_append]
      apply hglue
      · simp only [List.length_append]
        omega
      · rw [hvW]
        simp only [List.length_append]
        omega
      · simp only [List.length_append]
        omega

/-! ## Lemmas: toward the assembly refinement (claim C2) -/

theorem string_ext {a b : String} (h : a.data = b.data) : a = b := by
  cases a
  cases b
  exact congrArg String.mk h

theorem string_append_empty (a : String) : a ++ "" = a := by
  apply string_ext
  rw [string_data_append]
  simp [show ("" : String).data = [] from rfl]

theorem string_pos_iff {s : String} : 0 < s.length ↔ s ≠ "" := by
  constructor
  · intro h he
    subst he
    simp [String.length] at h
  · intro h
    cases s with
    | mk l =>
        cases l with
        | nil => exact absurd rfl h
        | cons c cs => simp [String.length]

theorem intercalate_pos_iff {sep : String} {l : List String}
    (h : ∀ s ∈ l, s ≠ "") :
    0 < (String.intercalate sep l).length ↔ l ≠ [] := by
  cases l with
  | nil => simp [intercalate_nil, String.length]
  | cons a t =>
      constructor
      · intro _ he
        exact List.noConfusion he
      · intro _
        exact intercalate_len_pos (h a (List.mem_cons_self a t))

theorem buildConditionList_entries_ne
    (build : Clause → List GoVal → Option (String × List GoVal)) :
    ∀ (cs : List Clause) (vars : List GoVal) (l : List String)
      (vars2 : List GoVal),
      buildConditionList build cs vars = some (l, vars2) →
      ∀ s ∈ l, s ≠ "" := by
  intro cs
  induction cs with
  | nil =>
      intro vars l v2 h s hs
      rw [buildConditionList] at h
      cases h
      simp at hs
  | cons c rest ih =>
      intro vars l v2 h s hs
      cases hb : build c vars with
      | none => simp [buildConditionList, hb] at h
      | some p =>
          rcases p with ⟨str, vars3⟩
          cases hr : buildConditionList build rest vars3 with
          | none => simp [buildConditionList, hb, hr] at h
          | some q =>
              rcases q with ⟨l2, v4⟩
              have h2 : (if str = "" then l2 else str :: l2) = l ∧
                  v4 = v2 := by
                simpa [buildConditionList, hb, hr] using h
              rcases h2 with ⟨hl, _⟩
              subst hl
              by_cases hse : str = ""
              · rw [if_pos hse] at hs
                exact ih vars3 l2 v4 hr s hs
              · rw [if_neg hse] at hs
                rcases List.mem_cons.mp hs with h3 | h3
                · exact h3 ▸ hse
                · exact ih vars3 l2 v4 hr s h3

theorem combinedConditionSql_eq_spec {AN O : List String}
    (hAN : ∀ s ∈ AN, s ≠ "") (hO : ∀ s ∈ O, s ≠ "") :
    combinedConditionSql AN O =
      (if AN = [] then String.intercalate " OR " O
       else if O = [] then String.intercalate " AND " AN
       else String.intercalate " AND " AN ++ " OR " ++
         String.intercalate " OR " O) := by
  rw [combinedConditionSql]
  by_cases hANe : AN = []
  · rw [if_pos hANe]
    rw [if_neg (by rw [hANe]; simp [intercalate_nil, String.length])]
  · rw [if_neg hANe]
    rw [if_pos ((intercalate_pos_iff hAN).mpr hANe)]
    by_cases hOe : O = []
    · rw [if_pos hOe]
      rw [if_neg (by rw [hOe]; simp [intercalate_nil, String.length])]
    · rw [if_neg hOe]
      rw [if_pos ((intercalate_pos_iff hO).mpr hOe)]

theorem assembleWhereSql_eq_spec (P : List String) (combined : String) :
    assembleWhereSql P combined =
      (if (P ++ (if combined = "" then []
          else if P = [] then [combined]
          else ["(" ++ combined ++ ")"])) = [] then ""
       else "WHERE " ++ String.intercalate " AND "
         (P ++ (if combined = "" then []
          else if P = [] then [combined]
          else ["(" ++ combined ++ ")"]))) := by
  rw [assembleWhereSql]
  by_cases hp : P = []
  · subst hp
    by_cases hcb : combined = ""
    · subst hcb
      simp [intercalate_nil, String.length]
    · rw [if_neg (by simp), if_pos (string_pos_iff.mpr hcb)]
      rw [if_neg hcb, if_pos rfl, List.nil_append]
      rw [if_neg (by simp), intercalate_single]
  · have hlp : 0 < P.length := List.length_pos.mpr hp
    rw [if_pos hlp]
    by_cases hcb : combined = ""
    · rw [if_pos hcb, if_neg (by rw [hcb]; simp [String.length])]
      rw [if_neg (by simp [hp])]
      rw [List.append_nil, string_append_empty]
    · rw [if_neg hcb, if_pos (string_pos_iff.mpr hcb), if_neg hp]
      rw [if_neg (by simp)]
      apply string_ext
      simp only [string_data_append]
      rw [intercalate_append_data " AND " P _ hp]
      simp only [List.flatMap_cons, List.flatMap_nil, List.append_nil,
        string_data_append, List.append_assoc]
      simp

theorem some_pair_ite (c : Prop) [h : Decidable c] (a b : String)
    (v : List GoVal) :
    (some (if c then a else b, v) : Option (String × List GoVal)) =
      if c then some (a, v) else some (b, v) := by
  by_cases hc : c
  · rw [if_pos hc, if_pos hc]
  · rw [if_neg hc, if_neg hc]

theorem whereTail_eq (scope : Scope) (P Q : List String) (hPQ : P = Q) :
    ∀ v1 : List GoVal,
      (match buildConditionList (buildWhereCondition scope)
          scope.search.whereConditions v1 with
       | none => none
       | some (andConditions, vars) =>
         match buildConditionList (buildWhereCondition scope)
             scope.search.orConditions vars with
         | none => none
         | some (orConditions, vars) =>
           match buildConditionList (buildNotCondition scope)
               scope.search.notConditions vars with
           | none => none
           | some (notConditions, vars) =>
             some (assembleWhereSql P
               (combinedConditionSql (andConditions ++ notConditions)
                 orConditions), vars)) =
      (match buildConditionList (buildWhereCondition scope)
          scope.search.whereConditions v1 with
       | none => none
       | some (whereGroup, vars) =>
         match buildConditionList (buildWhereCondition scope)
             scope.search.orConditions vars with
         | none => none
         | some (orGroup, vars) =>
           match buildConditionList (buildNotCondition scope)
               scope.search.notConditions vars with
           | none => none
           | some (notGroup, vars) =>
             let andGroup := whereGroup ++ notGroup
             let clauseGroup : String :=
               if andGroup = [] then String.intercalate " OR " orGroup
               else if orGroup = [] then String.intercalate " AND " andGroup
               else String.intercalate " AND " andGroup ++ " OR " ++
                 String.intercalate " OR " orGroup
             let groups : List String :=
               Q ++ (if clauseGroup = "" then []
                 else if Q = [] then [clauseGroup]
                 else ["(" ++ clauseGroup ++ ")"])
             if groups = [] then some ("", vars)
             else some ("WHERE " ++ String.intercalate " AND " groups,
               vars)) := by
  subst hPQ
  intro v1
  cases h1 : buildConditionList (buildWhereCondition scope)
      scope.search.whereConditions v1 with
  | none => rfl
  | some p1 =>
    rcases p1 with ⟨W, v2⟩
    simp only
    cases h2 : buildConditionList (buildWhereCondition scope)
        scope.search.orConditions v2 with
    | none => rfl
    | some p2 =>
      rcases p2 with ⟨O, v3⟩
      simp only
      cases h3 : buildConditionList (buildNotCondition scope)
          scope.search.notConditions v3 with
      | none => rfl
      | some p3 =>
        rcases p3 with ⟨N, v4⟩
        simp only
        have hW := buildConditionList_entries_ne _ _ _ _ _ h1
        have hO := buildConditionList_entries_ne _ _ _ _ _ h2
        have hN := buildConditionList_entries_ne _ _ _ _ _ h3
        have hWN : ∀ s ∈ W ++ N, s ≠ "" := by
          intro s hs
          rcases List.mem_append.mp hs with hm | hm
          · exact hW s hm
          · exact hN s hm
        rw [assembleWhereSql_eq_spec, combinedConditionSql_eq_spec hWN hO,
          some_pair_ite]

/-! ## Lemmas for the remaining claims -/

theorem no_q_of_plain {s : String} (h : plainStr s = true) :
    '?' ∉ s.data := by
  exact List.count_eq_zero.mp (count_q_zero_of_plain h)

theorem expandMarks_markers :
    ∀ (vs vars : List GoVal),
      (expandMarks vs vars).1 =
        (List.range' (vars.length + 1) vs.length).map markerStr := by
  intro vs
  induction vs with
  | nil => intro vars; simp [expandMarks]
  | cons v rest ih =>
      intro vars
      simp only [expandMarks, addToVars, List.length_cons, List.range'_succ,
        List.map_cons]
      rw [ih (vars ++ [v])]
      simp

theorem condPairSqls_explicit (op : String) :
    ∀ (kvs : List (String × GoVal)) (vars : List GoVal),
      condPairSqls op kvs vars =
        (List.zipWith
            (fun kv i => "(" ++ quoteId kv.1 ++ op ++ markerStr i ++ ")")
            kvs (List.range' (vars.length + 1) kvs.length),
          vars ++ kvs.map (fun kv => kv.2)) := by
  intro kvs
  induction kvs with
  | nil => intro vars; simp [condPairSqls]
  | cons kv rest ih =>
      intro vars
      obtain ⟨k, v⟩ := kv
      simp only [condPairSqls, addToVars, List.length_cons,
        List.range'_succ, List.zipWith_cons_cons]
      rw [ih (vars ++ [v])]
      simp

theorem assembleWhere_prefix (sd : String) (rest : List String)
    (combined : String) :
    List.IsPrefix ("WHERE " ++ sd).data
      (assembleWhereSql (sd :: rest) combined).data := by
  have h : (assembleWhereSql (sd :: rest) combined).data =
      ("WHERE " ++ sd).data ++
        (rest.flatMap (fun x => " AND ".data ++ x.data) ++
          (if combined.length > 0 then (" AND (" ++ combined ++ ")").data
           else [])) := by
    rw [assembleWhereSql, if_pos (by simp)]
    by_cases hcb : combined.length > 0
    · rw [if_pos hcb, if_pos hcb]
      simp only [string_data_append, intercalate_cons_data,
        List.append_assoc]
    · rw [if_neg hcb, if_neg hcb]
      simp only [string_append_empty, string_data_append,
        intercalate_cons_data, List.append_assoc, List.append_nil]
  rw [h]
  exact List.prefix_append _ _

mutual

theorem GoType.eqb_refl (t : GoType) : t.eqb t = true := by
  match t with
  | .base a b => simp [GoType.eqb]
  | .ptr e => simpa [GoType.eqb] using GoType.eqb_refl e
  | .slice e => simpa [GoType.eqb] using GoType.eqb_refl e
  | .strct a b n ov fs => simp [GoType.eqb, fieldsEqb_refl fs]
termination_by sizeOf t

theorem fieldsEqb_refl (fs : List GoFieldT) :
    GoType.eqb.fieldsEqb fs fs = true := by
  match fs with
  | [] => rfl
  | (n, a, d, ts, tg, ty) :: rest =>
      simp [GoType.eqb.fieldsEqb, GoType.eqb_refl ty, fieldsEqb_refl rest]
termination_by sizeOf fs

end

theorem processFields_db_isSome_cons (st : GoType) (f : GoFieldT)
    (fs : List GoFieldT) (db : Option LDB)
    (IHfs : ∀ d0, ((processFields st fs d0).2.2).isSome = d0.isSome)
    (IHg : ∀ d0, ((getModelStruct (indirectType (fieldTyp f)) d0).2).isSome
      = d0.isSome) :
    ((processFields st (f :: fs) db).2.2).isSome = db.isSome := by
  rw [processFields]
  split
  · change ((processFields st fs _).2.2).isSome = db.isSome
    rw [IHfs]
    by_cases hd : fieldDash f = true
    · rw [if_pos hd]
    · rw [if_neg hd]
      by_cases hs : (fieldTyp f).isScannerType = true
      · by_cases htm : (indirectType (fieldTyp f)).isTimeType = true
        · simp only [hs, htm, if_true, if_false, Bool.true_eq_false,
            Bool.false_eq_true, freshStructField]
        · simp only [hs, htm, if_true, if_false, Bool.true_eq_false,
            Bool.false_eq_true, freshStructField]
      · by_cases htm : (indirectType (fieldTyp f)).isTimeType = true
        · simp only [hs, htm, if_true, if_false, Bool.true_eq_false,
            Bool.false_eq_true, freshStructField]
        · simp only [hs, htm, if_true, if_false, Bool.true_eq_false,
            Bool.false_eq_true, freshStructField]
          by_cases hsl : (indirectType (fieldTyp f)).isSliceKind = true
          · by_cases hts : (indirectType (sliceElem
                (indirectType (fieldTyp f)))).isStructKind = true
            · simp only [hsl, hts, if_true, if_false, Bool.true_eq_false,
                Bool.false_eq_true, freshStructField]
            · simp only [hsl, hts, if_true, if_false, Bool.true_eq_false,
                Bool.false_eq_true, freshStructField]
          · by_cases hstk : (indirectType (fieldTyp f)).isStructKind = true
            · by_cases hemb : ((tagGet (fieldTagGorm f) "EMBEDDED").isSome
                  = true ∨ fieldAnon f = true)
              · simp only [hsl, hstk, hemb, if_true, if_false,
                  Bool.true_eq_false, Bool.false_eq_true, freshStructField]
                change ((getModelStruct _ _).2).isSome = db.isSome
                rw [IHg]
              · simp only [hsl, hstk, hemb, if_true, if_false,
                  Bool.true_eq_false, Bool.false_eq_true, freshStructField]
            · simp only [hsl, hstk, if_true, if_false, Bool.true_eq_false,
                Bool.false_eq_true, freshStructField]
  · exact IHfs db

mutual

theorem getModelStruct_db_isSome (t : GoType) (db : Option LDB) :
    ((getModelStruct t db).2).isSome = db.isSome := by
  rw [getModelStruct]
  split
  · rfl
  · split
    · rename_i sc tm name tnm rawFields heq
      have hI := processFields_db_isSome
        (GoType.strct sc tm name tnm rawFields) rawFields db
      rcases hpf : processFields (GoType.strct sc tm name tnm rawFields)
          rawFields db with ⟨fields, pkIdx, db2⟩
      rw [hpf] at hI
      simp only [hpf]
      rcases hpp : postPassFields db2 fields pkIdx 0 with ⟨f2, p2⟩
      simp only [hpp]
      cases db2 with
      | none => simpa using hI
      | some d => simpa using hI
    · rfl
termination_by sizeOf t
decreasing_by
  rename_i heq2
  have h1 := sizeOf_scopeTypeOf_le t
  rw [heq2] at h1
  simp at h1
  omega

theorem processFields_db_isSome (st : GoType) (l : List GoFieldT)
    (db : Option LDB) : ((processFields st l db).2.2).isSome = db.isSome := by
  match l with
  | [] => rw [processFields]
  | f :: fs =>
      exact processFields_db_isSome_cons st f fs db
        (fun d0 => processFields_db_isSome st fs d0)
        (fun d0 => getModelStruct_db_isSome (indirectType (fieldTyp f)) d0)
termination_by sizeOf l
decreasing_by
  all_goals
    first
      | (obtain ⟨n1, a1, d1, ts1, tg1, ty1⟩ := f
         have h1 := sizeOf_indirectType_le (fieldTyp (n1, a1, d1, ts1, tg1, ty1))
         simp [fieldTyp] at h1 ⊢
         omega)
      | (simp
         try omega)

end

/-- Claim C2: `whereSql` assembles the WHERE clause exactly as the spec
words it — the soft-delete filter (unless unscoped, for a type with a
`deleted_at` column), the primary-key equality (when the target carries a
non-zero key) and the parenthesized clause group (where- and not-clauses
joined by ` AND `, then ` OR ` and the or-clauses when any exist) joined
by ` AND ` after the `WHERE ` keyword, every empty group omitted, the
whole result empty (no `WHERE`) when every group is empty:
`whereSql = specWhereAssembly` on all scopes and bound-value lists, where
`specWhereAssembly` is written from the spec sentence. -/
theorem c2_where_assembly_refines_spec (scope : Scope)
    (vars : List GoVal) :
    whereSql scope vars = specWhereAssembly scope vars := by
  simp only [whereSql, specWhereAssembly]
  by_cases hsd : scope.search.unscope = false ∧
      scope.hasDeletedAtField = true
  · rw [if_pos hsd]
    by_cases hpz : scope.primaryKeyIsZero = false
    · rw [if_pos hpz, if_pos hpz]
      simp only [addToVars]
      exact whereTail_eq scope _ _ rfl _
    · rw [if_neg hpz, if_neg hpz]
      exact whereTail_eq scope [softDeleteSql scope]
        ([softDeleteSql scope] ++ []) (by simp) vars
  · rw [if_neg hsd]
    by_cases hpz : scope.primaryKeyIsZero = false
    · rw [if_pos hpz, if_pos hpz]
      simp only [addToVars]
      exact whereTail_eq scope _ _ rfl _
    · rw [if_neg hpz, if_neg hpz]
      exact whereTail_eq scope [] ([] ++ []) (by simp) vars

/-- Claim C7: `GetModelStruct` (the spec's `DescribeType`) is idempotent:
calling it again for the same type on the handle state the first call
returned yields the very descriptor and handle of the first call — with a
handle present the first call's memoization (model_struct.go:305-307) is
hit through the type-identity lookup (model_struct.go:131-135), and
without one the computation replays deterministically. -/
theorem c7_describe_type_idempotent (t : GoType) (db : Option LDB) :
    getModelStruct t (getModelStruct t db).2 =
      ((getModelStruct t db).1, (getModelStruct t db).2) := by
  rcases hF : getModelStruct t db with ⟨m1, db1⟩
  simp only
  rw [getModelStruct] at hF
  split at hF
  · rename_i m hm
    injection hF with h1 h2
    subst h1
    subst h2
    rw [getModelStruct, hm]
  · split at hF
    · rename_i hmiss sc tm name tnm rawFields heq
      simp only at hF
      rcases hpf : processFields (GoType.strct sc tm name tnm rawFields)
          rawFields db with ⟨fields, pkIdx, db2⟩
      rw [hpf] at hF
      rcases hpp : postPassFields db2 fields pkIdx 0 with ⟨f2, p2⟩
      rw [hpp] at hF
      cases db2 with
      | some d2 =>
          simp only at hF
          injection hF with h1 h2
          subst h1
          subst h2
          rw [getModelStruct]
          have he : (GoType.strct sc tm name tnm rawFields).eqb
              (scopeTypeOf t) = true := by
            rw [heq]
            exact GoType.eqb_refl _
          simp only [Option.some_bind, cacheLookup, he, if_true]
      | none =>
          have hdb : db = none := by
            have hI := processFields_db_isSome
              (GoType.strct sc tm name tnm rawFields) rawFields db
            rw [hpf] at hI
            cases db with
            | none => rfl
            | some d => simp at hI
          subst hdb
          simp only at hF
          injection hF with h1 h2
          subst h1
          subst h2
          rw [getModelStruct]
          simp only [Option.none_bind]
          split
          · rename_i sc2 tm2 name2 tnm2 rawFields2 heq2
            have hinj := heq.symm.trans heq2
            injection hinj with e1 e2 e3 e4 e5
            subst e1
            subst e2
            subst e3
            subst e4
            subst e5
            simp only [hpf, hpp]
          · rename_i hno
            exact (hno sc tm name tnm rawFields heq).elim
    · rename_i hmiss hnostrct
      injection hF with h1 h2
      subst h1
      subst h2
      rw [getModelStruct, hmiss]
      simp only


/-- Claim C8: with no `TableName` override and singular-table mode off
(here: no handle), the derived table name for a struct type named
`Category` is `categories`, for `Address` is `addresses` and for `Day` is
`days` — snake-casing plus the ordered suffix-rewrite rules of
model_struct.go:110-111 applied at model_struct.go:148-157. -/
theorem c8_pluralized_table_names :
    (getModelStruct (GoType.strct false false "Category" none [])
        none).1.tableName = "categories" ∧
    (getModelStruct (GoType.strct false false "Address" none [])
        none).1.tableName = "addresses" ∧
    (getModelStruct (GoType.strct false false "Day" none [])
        none).1.tableName = "days" := by
  refine ⟨?_, ?_, ?_⟩ <;>
    simp [getModelStruct, processFields, postPassFields, scopeTypeOf,
      indirectType, sliceElem] <;> rfl

/-- Claim C3: code bug — a slice not-clause does NOT contribute a
`NOT IN` condition: scope_private.go:90-93 compute the `NOT IN` text and
argument list but line 94 `return ""` discards them, so the clause renders
as the empty string, which the condition loop of `whereSql`
(scope_private.go:185-189) then drops entirely from the assembled WHERE
clause. -/
theorem c3_slice_not_clause_renders_nothing (scope : Scope)
    (vs : List GoVal) (args : Option (List QArg)) (vars : List GoVal) :
    buildNotCondition scope { query := .qvalList vs, args := args } vars =
      some ("", vars) ∧
    buildConditionList (buildNotCondition scope)
        [{ query := .qvalList vs, args := args }] vars =
      some ([], vars) := by
  refine ⟨rfl, ?_⟩
  simp [buildConditionList, buildNotCondition]

/-- Claim C1 (amended): for a well-formed render scope (`wfRenderScope`:
plain identifiers, balanced where/or clauses, not-clauses carrying at most
the one binding argument their template consumes, and or-clauses not
combined with not-clauses), `whereSql` renders without error and the
accumulated bound-value list is in exactly the order of the left-to-right
value markers of the rendered text: the marker sequence is `[1, ..., n]`
for the `n` values bound, and the finalized text carries exactly `n` `?`
placeholders.  The amendment is needed because `whereSql` binds or-clause
values before not-clause values but renders the not-clauses first
(scope_private.go:171-197 against 199-205), and because a not-clause
substitutes scalar arguments into its `notEqualSql` template rather than
the running string (scope_private.go:125). -/
theorem c1_bound_value_order (scope : Scope)
    (hwf : wfRenderScope scope = true) :
    ∃ str vars2, whereSql scope [] = some (str, vars2) ∧
      tagsOfQ str = some (List.range' 1 vars2.length) ∧
      countQ (finalizeSql str) = vars2.length := by
  obtain ⟨str, vars2, V, h1, h2, h3⟩ := whereSql_spec scope [] hwf
  have hscan : ScanPre str.data (List.range' 1 V.length) := by
    simpa using h3
  have hlen : vars2.length = V.length := by rw [h2]; simp
  refine ⟨str, vars2, h1, ?_, ?_⟩
  · rw [hlen]
    exact hscan.scan
  · have h4 := countQ_finalize hscan.scan
    rw [h4, List.length_range', hlen]

/-- Witness for C1: the well-formed scope `exScopeOrdered` (soft delete,
non-zero primary key, two where-clauses, a plain-column not-clause)
satisfies the hypothesis and the conclusion. -/
theorem c1_bound_value_order_witness :
    wfRenderScope exScopeOrdered = true ∧
    (∃ str vars2, whereSql exScopeOrdered [] = some (str, vars2) ∧
      tagsOfQ str = some (List.range' 1 vars2.length) ∧
      countQ (finalizeSql str) = vars2.length) :=
  ⟨by decide, c1_bound_value_order exScopeOrdered (by decide)⟩

/-- Counterexample to C1 as stated for every error-free rendering: on
`exScopeMixed` (an or-clause binding value 1 and a not-clause binding
value 2) `whereSql` succeeds and binds `[1, 2]`, but the rendered text
carries the markers in order `[2, 1]` — the not-clause text precedes the
or-clause text while its value is bound after it. -/
theorem c1_bound_value_order_counterexample :
    (whereSql exScopeMixed []).map (fun p => (tagsOfQ p.1, p.2)) =
      some (some [2, 1], [.vint 1, .vint 2]) ∧
    some [2, 1] ≠ some (List.range' 1 2) := by
  constructor
  · decide
  · decide

/-- Claim C4: a slice where-clause renders `(<quoted pk> in (?))` with the
single `?` expanded to one comma-joined positional marker per element, in
element order, and the bound-value list extended by the elements in order
(scope_private.go:30-32, 49-58); concretely `[]int{1,2,3}` on primary key
`id` finalizes to `("id" in (?,?,?))` binding `[1, 2, 3]`. -/
theorem c4_slice_in_expansion (scope : Scope) (xs vars : List GoVal)
    (args : Option (List QArg)) (hpk : plainStr scope.primaryKey = true) :
    (buildWhereCondition scope { query := .qvalList xs, args := args }
        vars =
      some ("(" ++ quoteId scope.primaryKey ++ " in (" ++
          String.intercalate ","
            ((List.range' (vars.length + 1) xs.length).map markerStr) ++
          "))", vars ++ xs)) ∧
    ((buildWhereCondition exScopeMixed
        { query := .qvalList [.vint 1, .vint 2, .vint 3], args := none }
        []).map (fun p => (finalizeSql p.1, p.2)) =
      some ("(\x22id\x22 in (?,?,?))", [.vint 1, .vint 2, .vint 3])) := by
  constructor
  · show some (processWhereArgs [QArg.arr xs]
        ("(" ++ quoteId scope.primaryKey ++ " in (?))") vars) = _
    rw [processWhereArgs_arr, processWhereArgs_nil]
    rw [expandMarks_markers, (expandMarks_spec xs vars).1]
    have hd : ("(" ++ quoteId scope.primaryKey ++ " in (?))").data =
        ("(".data ++ (quoteId scope.primaryKey).data ++ " in (".data) ++
          '?' :: "))".data := by
      simp only [string_data_append, List.append_assoc]
      rfl
    have hq : '?' ∉ ("(".data ++ (quoteId scope.primaryKey).data ++
        " in (".data) := by
      intro hmem
      rcases List.mem_append.mp hmem with h1 | h1
      · rcases List.mem_append.mp h1 with h2 | h2
        · simp at h2
        · exact no_q_of_plain (plain_quoteId hpk) h2
      · simp at h1
    have hrfq : replaceFirstQ
        ("(" ++ quoteId scope.primaryKey ++ " in (?))")
        (String.intercalate ","
          ((List.range' (vars.length + 1) xs.length).map markerStr)) =
        "(" ++ quoteId scope.primaryKey ++ " in (" ++
          String.intercalate ","
            ((List.range' (vars.length + 1) xs.length).map markerStr) ++
          "))" := by
      apply string_ext
      show rfq ("(" ++ quoteId scope.primaryKey ++ " in (?))").data _ = _
      rw [hd, rfq_hit hq]
      simp only [string_data_append, List.append_assoc]
    rw [hrfq]
  · decide

/-- Witness for C4: the general conclusion at primary key `id`, the slice
`[1, 2, 3]` and an empty bound-value list. -/
theorem c4_slice_in_expansion_witness :
    plainStr exScopeMixed.primaryKey = true ∧
    ((buildWhereCondition exScopeMixed
        { query := .qvalList [.vint 1, .vint 2, .vint 3], args := none }
        [] =
      some ("(" ++ quoteId exScopeMixed.primaryKey ++ " in (" ++
          String.intercalate ","
            ((List.range' (([] : List GoVal).length + 1)
              ([GoVal.vint 1, .vint 2, .vint 3].length)).map markerStr) ++
          "))", ([] : List GoVal) ++ [.vint 1, .vint 2, .vint 3])) ∧
    ((buildWhereCondition exScopeMixed
        { query := .qvalList [.vint 1, .vint 2, .vint 3], args := none }
        []).map (fun p => (finalizeSql p.1, p.2)) =
      some ("(\x22id\x22 in (?,?,?))", [.vint 1, .vint 2, .vint 3]))) :=
  ⟨by decide, c4_slice_in_expansion exScopeMixed
    [.vint 1, .vint 2, .vint 3] [] none (by decide)⟩

/-- Claim C5 (amended): a mapping where-clause renders one parenthesized
equality `("<key>" = <marker>)` per pair — each pair parenthesized
separately, the conditions joined by ` AND ` (scope_private.go:33-38),
not a single outer parenthesis pair as the claim's quoted text has it —
with the values bound in iteration order; concretely
`{"age": 30, "name": "bob"}` finalizes to `("age" = ?) AND ("name" = ?)`
binding `[30, "bob"]`. -/
theorem c5_map_clause_rendering (scope : Scope)
    (kvs : List (String × GoVal)) (args : Option (List QArg))
    (vars : List GoVal) :
    (buildWhereCondition scope { query := .qmap kvs, args := args } vars =
      some (String.intercalate " AND "
          (List.zipWith
            (fun kv i => "(" ++ quoteId kv.1 ++ " = " ++ markerStr i ++ ")")
            kvs (List.range' (vars.length + 1) kvs.length)),
        vars ++ kvs.map (fun kv => kv.2))) ∧
    ((buildWhereCondition exScopeMixed
        { query := .qmap [("age", .vint 30), ("name", .vstr "bob")],
          args := none } []).map (fun p => (finalizeSql p.1, p.2)) =
      some ("(\x22age\x22 = ?) AND (\x22name\x22 = ?)",
        [.vint 30, .vstr "bob"])) := by
  constructor
  · show some (String.intercalate " AND " (condPairSqls " = " kvs vars).1,
      (condPairSqls " = " kvs vars).2) = _
    rw [condPairSqls_explicit]
  · decide

/-- Counterexample to C5's quoted rendering: the mapping
`{"age": 30, "name": "bob"}` renders (finalized) to
`("age" = ?) AND ("name" = ?)`, which is not the claim's
`("age" = ? AND "name" = ?)`. -/
theorem c5_map_clause_counterexample :
    ((buildWhereCondition exScopeMixed
        { query := .qmap [("age", .vint 30), ("name", .vstr "bob")],
          args := none } []).map (fun p => finalizeSql p.1) =
      some "(\x22age\x22 = ?) AND (\x22name\x22 = ?)") ∧
    some "(\x22age\x22 = ?) AND (\x22name\x22 = ?)" ≠
      some "(\x22age\x22 = ? AND \x22name\x22 = ?)" := by
  constructor
  · decide
  · decide

theorem whereSql_out_shape (scope : Scope) (P : List String)
    (v1 : List GoVal) (str : String) (vars2 : List GoVal) :
    (match buildConditionList (buildWhereCondition scope)
        scope.search.whereConditions v1 with
     | none => none
     | some (andConditions, vars) =>
       match buildConditionList (buildWhereCondition scope)
           scope.search.orConditions vars with
       | none => none
       | some (orConditions, vars) =>
         match buildConditionList (buildNotCondition scope)
             scope.search.notConditions vars with
         | none => none
         | some (notConditions, vars) =>
           some (assembleWhereSql P
             (combinedConditionSql (andConditions ++ notConditions)
               orConditions), vars)) = some (str, vars2) →
    ∃ A O N, str = assembleWhereSql P
      (combinedConditionSql (A ++ N) O) := by
  intro h
  cases h1 : buildConditionList (buildWhereCondition scope)
      scope.search.whereConditions v1 with
  | none => rw [h1] at h; simp at h
  | some p1 =>
      rcases p1 with ⟨A, v2⟩
      rw [h1] at h
      simp only at h
      cases h2 : buildConditionList (buildWhereCondition scope)
          scope.search.orConditions v2 with
      | none => rw [h2] at h; simp at h
      | some p2 =>
          rcases p2 with ⟨O, v3⟩
          rw [h2] at h
          simp only at h
          cases h3 : buildConditionList (buildNotCondition scope)
              scope.search.notConditions v3 with
          | none => rw [h3] at h; simp at h
          | some p3 =>
              rcases p3 with ⟨N, v4⟩
              rw [h3] at h
              simp only at h
              refine ⟨A, O, N, ?_⟩
              have := congrArg (fun o => o.map Prod.fst) h
              simpa using this.symm

/-- Claim C6: the soft-delete filter appears in the rendered WHERE clause
if and only if the target type has a `deleted_at` column and the unscoped
flag is false (scope_private.go:162-165): under the condition every
successful rendering starts with `WHERE ` followed by the filter, and
without it `whereSql` behaves exactly as on the same scope with the
`deleted_at` column absent. -/
theorem c6_soft_delete_filter_iff (scope : Scope) (vars : List GoVal) :
    ((scope.search.unscope = false ∧ scope.hasDeletedAtField = true) →
      ∀ str vars2, whereSql scope vars = some (str, vars2) →
        List.IsPrefix ("WHERE " ++ softDeleteSql scope).data str.data) ∧
    (¬ (scope.search.unscope = false ∧ scope.hasDeletedAtField = true) →
      whereSql scope vars =
        whereSql { scope with hasDeletedAtField := false } vars) := by
  constructor
  · intro hc str vars2 hw
    simp only [whereSql] at hw
    rw [if_pos hc] at hw
    by_cases hpz : scope.primaryKeyIsZero = false
    · rw [if_pos hpz] at hw
      simp only [addToVars] at hw
      obtain ⟨A, O, N, hstr⟩ := whereSql_out_shape scope _ _ _ _ hw
      rw [hstr]
      exact assembleWhere_prefix _ _ _
    · rw [if_neg hpz] at hw
      simp only at hw
      obtain ⟨A, O, N, hstr⟩ := whereSql_out_shape scope _ _ _ _ hw
      rw [hstr]
      exact assembleWhere_prefix _ _ _
  · intro hc
    simp only [whereSql]
    rw [if_neg hc,
      if_neg (show ¬(scope.search.unscope = false ∧ false = true) from
        by simp)]
    rfl


/-- Witness for C6: both sides at concrete scopes — `exScopeOrdered`
satisfies the condition and its rendering starts with the filter;
`exScopeMixed` (no `deleted_at` column) renders as if the column were
absent. -/
theorem c6_soft_delete_filter_iff_witness :
    List.IsPrefix ("WHERE " ++ softDeleteSql exScopeOrdered).data
      exScopeOrderedOut.1.data ∧
    whereSql exScopeMixed [] =
      whereSql { exScopeMixed with hasDeletedAtField := false } [] := by
  constructor
  · exact (c6_soft_delete_filter_iff exScopeOrdered []).1 (by decide)
      exScopeOrderedOut.1 exScopeOrderedOut.2 rfl
  · exact (c6_soft_delete_filter_iff exScopeMixed []).2 (by decide)

theorem alter_flatMap_eq (d : LDialect) (pkSqlType tn : String) :
    ∀ (fields : List LStructField),
      (∀ f ∈ fields, createJoinTableSqls d pkSqlType f = []) →
      fields.flatMap (fun f =>
        (if d.hasColumn tn f.dbName then []
         else if f.isNormal then [alterAddColumnSql tn f] else []) ++
        createJoinTableSqls d pkSqlType f) =
      (fields.filter
          (fun f => !d.hasColumn tn f.dbName && f.isNormal)).map
        (alterAddColumnSql tn) := by
  intro fields
  induction fields with
  | nil => intro _; rfl
  | cons f rest ih =>
      intro hj
      rw [List.flatMap_cons, hj f (List.mem_cons_self f rest),
        List.append_nil,
        ih (fun g hg => hj g (List.mem_cons_of_mem f hg))]
      by_cases hc : d.hasColumn tn f.dbName = true
      · rw [if_pos hc]
        simp [List.filter_cons, hc]
      · rw [if_neg hc]
        by_cases hn : f.isNormal = true
        · rw [if_pos hn]
          simp only [List.filter_cons]
          rw [if_pos (by simp [hc, hn])]
          simp
        · rw [if_neg hn]
          simp only [List.filter_cons]
          rw [if_neg (by simp [hc, hn])]
          simp

/-- Claim C9: for a type whose declared fields are all plain columns with
no join tables, `autoMigrate` (scope_private.go:505-522) on an absent
table emits exactly the one `CREATE TABLE` statement over the plain
columns and no `ALTER` statements (scope_private.go:450-460), and on an
existing table emits exactly one `ALTER TABLE ... ADD` per declared plain
column the table is missing — two missing columns give exactly two
`ALTER`s — and no `CREATE TABLE`. -/
theorem c9_auto_migrate_emissions (d : LDialect) (pkSqlType tn : String)
    (fields : List LStructField)
    (hrel : fields.all (fun f => f.relationship = none) = true) :
    (d.hasTable tn = false →
      autoMigrateSqls d pkSqlType tn fields =
        ["CREATE TABLE " ++ quoteId tn ++ " (" ++
          String.intercalate ","
            ((fields.filter (fun f => f.isNormal)).map
              (fun f => quoteId f.dbName ++ " " ++ f.sqlTag)) ++ ")"]) ∧
    (d.hasTable tn = true →
      autoMigrateSqls d pkSqlType tn fields =
        (fields.filter
            (fun f => !d.hasColumn tn f.dbName && f.isNormal)).map
          (alterAddColumnSql tn)) := by
  have hjoin : ∀ f ∈ fields, createJoinTableSqls d pkSqlType f = [] := by
    intro f hf
    have h := List.all_eq_true.mp hrel f hf
    have h2 : f.relationship = none := by simpa using h
    rw [createJoinTableSqls, h2]
  constructor
  · intro ht
    rw [autoMigrateSqls, if_neg (by simp [ht]), createTableSqls]
    have hfm : ∀ (l : List LStructField),
        (∀ f ∈ l, createJoinTableSqls d pkSqlType f = []) →
        l.flatMap (createJoinTableSqls d pkSqlType) = [] := by
      intro l
      induction l with
      | nil => intro _; rfl
      | cons f rest ih =>
          intro hj
          rw [List.flatMap_cons, hj f (List.mem_cons_self f rest),
            List.nil_append,
            ih (fun g hg => hj g (List.mem_cons_of_mem f hg))]
    rw [hfm fields hjoin, List.nil_append]
  · intro ht
    rw [autoMigrateSqls, if_pos (by simp [ht])]
    exact alter_flatMap_eq d pkSqlType tn fields hjoin

/-- Witness for C9: the dialect `exDialect` (a `users` table carrying only
`id`, no `orders` table) with the three plain columns `exFields` — two
`ALTER`s on `users`, one `CREATE` on `orders`. -/
theorem c9_auto_migrate_emissions_witness :
    (exFields.all (fun f => f.relationship = none) = true) ∧
    (exDialect.hasTable "users" = true →
      autoMigrateSqls exDialect "integer" "users" exFields =
        (exFields.filter
            (fun f => !exDialect.hasColumn "users" f.dbName &&
              f.isNormal)).map
          (alterAddColumnSql "users")) ∧
    (exDialect.hasTable "orders" = false →
      autoMigrateSqls exDialect "integer" "orders" exFields =
        ["CREATE TABLE " ++ quoteId "orders" ++ " (" ++
          String.intercalate ","
            ((exFields.filter (fun f => f.isNormal)).map
              (fun f => quoteId f.dbName ++ " " ++ f.sqlTag)) ++ ")"]) ∧
    autoMigrateSqls exDialect "integer" "users" exFields =
      ["ALTER TABLE \x22users\x22 ADD name varchar(255);",
       "ALTER TABLE \x22users\x22 ADD age integer;"] ∧
    autoMigrateSqls exDialect "integer" "orders" exFields =
      ["CREATE TABLE \x22orders\x22 (\x22id\x22 integer,\x22name\x22 varchar(255),\x22age\x22 integer)"] :=
  ⟨by decide,
    (c9_auto_migrate_emissions exDialect "integer" "users" exFields
      (by decide)).2,
    (c9_auto_migrate_emissions exDialect "integer" "orders" exFields
      (by decide)).1,
    by decide, by decide⟩

/-- Claim C10: for a clause whose query is a non-numeric string, both
builders read the clause's `args` entry unconditionally
(scope_private.go:49, 111) — they fail (the Go type assertion panics,
`none` here) exactly when the entry is absent, and render totally when
it is present; clauses of the numeric-string, scalar, slice, mapping and
struct shapes return without touching `args`. -/
theorem c10_string_clause_args_totality (scope : Scope)
    (vars : List GoVal) (c : Clause) :
    (∀ s, c.query = .qstr s → isNumericString s = false →
      ((buildWhereCondition scope c vars = none ↔ c.args = none) ∧
        (buildNotCondition scope c vars = none ↔ c.args = none))) ∧
    (c.query.isStr = false →
      (buildWhereCondition scope c vars).isSome = true ∧
      (buildNotCondition scope c vars).isSome = true) ∧
    (∀ s, c.query = .qstr s → isNumericString s = true →
      (buildWhereCondition scope c vars).isSome = true ∧
      (buildNotCondition scope c vars).isSome = true) := by
  rcases c with ⟨q, args⟩
  refine ⟨?_, ?_, ?_⟩
  · intro s hs hnum
    cases hs
    cases args with
    | none =>
        refine ⟨⟨fun _ => rfl, fun _ => ?_⟩, ⟨fun _ => rfl, fun _ => ?_⟩⟩
        · simp [buildWhereCondition, hnum]
        · by_cases hop : containsCompOp s = true <;>
            simp [buildNotCondition, hnum, hop]
    | some a =>
        refine ⟨⟨fun h => ?_, fun h => ?_⟩, ⟨fun h => ?_, fun h => ?_⟩⟩
        · simp [buildWhereCondition, hnum] at h
        · exact absurd h (by simp)
        · by_cases hop : containsCompOp s = true <;>
            simp [buildNotCondition, hnum, hop] at h
        · exact absurd h (by simp)
  · intro hq
    cases q with
    | qstr s => simp [Query.isStr] at hq
    | qint n => constructor <;> simp [buildWhereCondition, buildNotCondition]
    | qvalList vs =>
        constructor <;> simp [buildWhereCondition, buildNotCondition]
    | qmap kvs =>
        constructor <;> simp [buildWhereCondition, buildNotCondition]
    | qstruct fs =>
        constructor <;> simp [buildWhereCondition, buildNotCondition]
  · intro s hs hnum
    cases hs
    constructor <;> simp [buildWhereCondition, buildNotCondition, hnum]

/-- Witness for C10: the clause `{query: "name = ?"}` with no `args`
entry makes both builders abort, and with `args: []` present they render. -/
theorem c10_string_clause_args_totality_witness :
    ((buildWhereCondition exScopeMixed exClauseNoArgs [] = none ↔
        exClauseNoArgs.args = none) ∧
      (buildNotCondition exScopeMixed exClauseNoArgs [] = none ↔
        exClauseNoArgs.args = none)) :=
  (c10_string_clause_args_totality exScopeMixed [] exClauseNoArgs).1
    "name = ?" rfl (by decide)

end Gorm
